import Mathlib

/-!
Verification of the asset-cache image builder (`create_asset_cache.go` and
`internal/commands/create_asset_cache.go` of the `pack` repository).

The Go code is shallowly embedded as pure Lean functions.  Effectful calls to
external collaborators (the image factory, the downloader, the filesystem and
the `go-containerregistry` tag parser) are modelled by an explicit environment
`Env` of response functions, and each call is recorded in an event trace, so
that statements such as "no image-store call happens" or "the temporary
directory is removed on every exit path" become statements about the trace.

Machine integers do not overflow in the modelled code (sizes are `int64`,
values are file lengths), so numbers are modelled as `Nat`; byte streams are
`List Nat` with each element a byte value.
-/

namespace PackVerify

/-- Asset record.  Modelled from the spec: the Go type `dist.Asset`
(package `internal/dist`) is not under `src/`; the spec gives its fields as
`ID`, `Name`, `Version`, `Sha256`, `Stacks`, `URI`, `LayerDiffID`, with
`LayerDiffID` computed by the packer, and the label JSON schema
`{ID, Name, Version, Sha256, Stacks: [string], URI, LayerDiffID}`. -/
structure Asset where
  ID : String
  Name : String
  Version : String
  Sha256 : String
  Stacks : List String
  URI : String
  LayerDiffID : String
deriving Repr, DecidableEq

/-- Go map `map[string]V`, modelled as an association list whose keys are kept
unique: assignment `m[k] = v` removes any entry for `k` and appends `(k, v)`. -/
def mapSet {α : Type} (m : List (String × α)) (k : String) (v : α) : List (String × α) :=
  m.filter (fun p => p.1 != k) ++ [(k, v)]

/-- Go map lookup `m[k]`. -/
def lookupMap {α : Type} (m : List (String × α)) (k : String) : Option α :=
  (m.find? (fun p => p.1 == k)).map (·.2)

/-- The constant `pack.AssetLayersLabel`. -/
def AssetLayersLabel : String := "io.buildpacks.asset.layers"

/-- The constant `pack.AssetMetadataLabel` (declared in the source, unused by the build). -/
def AssetMetadataLabel : String := "io.buildpacks.asset.cache.metadata"

/-- Modelled from the spec: `archive.NormalizedDateTime` (package
`pkg/archive`, not under `src/`) is the single fixed, normalized modification
instant used for every tar entry — not wall-clock time.  In the `pack`
repository it is 1980-01-01T00:00:01Z, whose Unix representation is
315532801; only its fixedness matters to the claims. -/
def NormalizedDateTime : Nat := 315532801

/-! ## The tar layer stream

`toDistTar` drives Go's `archive/tar.Writer` with three `WriteHeader` calls
and one `Write` call.  We record those calls as a list of `TarOp` and give
them the byte-level semantics of `archive/tar` (USTAR header blocks, data,
512-byte padding owed after data and flushed by the next header or by
`Close`; `Close` additionally appends two 512-byte zero blocks). -/

/-- The fields of `tar.Header` that `toDistTar` sets.  `typeflag` is the
header byte (`'5'` = 53 for `tar.TypeDir`, `'0'` = 48 for `tar.TypeReg`). -/
structure TarHeader where
  typeflag : Nat
  name : String
  mode : Nat
  size : Nat
  modTime : Nat
deriving Repr, DecidableEq

/-- One call made against the tar writer. -/
inductive TarOp where
  | writeHeader (h : TarHeader)
  | write (bs : List Nat)
deriving Repr, DecidableEq

/-- ASCII bytes of a string (all strings written by this code are ASCII). -/
def asciiBytes (s : String) : List Nat := s.data.map Char.toNat

/-- Zero-fill a field to width `w` (USTAR fields live in a zeroed block, and
Go's `formatString` copies the payload and leaves the rest zero). -/
def padTo (w : Nat) (bs : List Nat) : List Nat := bs ++ List.replicate (w - bs.length) 0

/-- Octal ASCII digits of `n`, most significant first (fuel-based so that it
is structurally recursive; the fuel `n+1` always suffices). -/
def octalCore : Nat → Nat → List Nat
  | 0, _ => []
  | fuel + 1, n => if n < 8 then [48 + n] else octalCore fuel (n / 8) ++ [48 + n % 8]

/-- Octal ASCII digits of `n` (`0` renders as `"0"`). -/
def octal (n : Nat) : List Nat := octalCore (n + 1) n

/-- Go `archive/tar` `formatter.formatOctal` into a field of width `w`:
leading ASCII `'0'` padding up to width `w - 1`, then the digits, then a NUL
terminator (the rest of the field, if any, stays zero). -/
def formatOctal (w : Nat) (n : Nat) : List Nat :=
  padTo w (List.replicate (w - 1 - (octal n).length) 48 ++ octal n)

/-- The checksum field: Go formats the checksum as octal into the first 7
bytes (6 digits, zero padded, then NUL) and puts an ASCII space in byte 8. -/
def chksumField (n : Nat) : List Nat := formatOctal 7 n ++ [32]

/-- Everything of a USTAR header block before the checksum field. -/
def headerPre (h : TarHeader) : List Nat :=
  padTo 100 (asciiBytes h.name) ++
  formatOctal 8 h.mode ++
  formatOctal 8 0 ++
  formatOctal 8 0 ++
  formatOctal 12 h.size ++
  formatOctal 12 h.modTime

/-- Everything of a USTAR header block after the checksum field: typeflag,
linkname, magic `"ustar\0"`, version `"00"`, uname, gname, devmajor,
devminor, an empty name-split field, and the trailing block padding. -/
def headerPost (h : TarHeader) : List Nat :=
  [h.typeflag] ++
  List.replicate 100 0 ++
  (asciiBytes "ustar" ++ [0]) ++
  [48, 48] ++
  List.replicate 32 0 ++
  List.replicate 32 0 ++
  formatOctal 8 0 ++
  formatOctal 8 0 ++
  List.replicate 155 0 ++
  List.replicate 12 0

/-- The checksum input: the block with the checksum field read as 8 spaces. -/
def headerChk (h : TarHeader) : Nat :=
  (headerPre h ++ List.replicate 8 32 ++ headerPost h).sum

/-- The 512-byte USTAR header block Go's `tar.Writer.WriteHeader` emits for
the headers `toDistTar` passes (USTAR path: short ASCII name, small size). -/
def headerBytes (h : TarHeader) : List Nat :=
  headerPre h ++ chksumField (headerChk h) ++ headerPost h

/-- Padding owed after `n` bytes of entry data (`tw.pad`). -/
def tarPad (n : Nat) : Nat := (512 - n % 512) % 512

/-- Byte-level semantics of a sequence of tar writer calls without a final
`Close` or `Flush`: each `WriteHeader` first flushes the padding owed by the
previous entry, then emits its header block; `Write` emits the data bytes.
The padding owed by the last entry is never written. -/
def runTarOpsAux : List TarOp → Nat → List Nat
  | [], _ => []
  | .writeHeader h :: rest, owed =>
    List.replicate owed 0 ++ headerBytes h ++ runTarOpsAux rest (tarPad h.size)
  | .write bs :: rest, owed => bs ++ runTarOpsAux rest owed

/-- The bytes produced by the writer calls, with no `Close`/`Flush`. -/
def runTarOps (ops : List TarOp) : List Nat := runTarOpsAux ops 0

/-- Padding still owed after the calls (what a `Flush` would write). -/
def finalOwed : List TarOp → Nat → Nat
  | [], owed => owed
  | .writeHeader h :: rest, _ => finalOwed rest (tarPad h.size)
  | .write _ :: rest, owed => finalOwed rest owed

/-- The bytes a closed archive would hold: `Close` flushes the owed padding
and appends two 512-byte zero blocks (the end-of-archive marker). -/
def runTarOpsClosed (ops : List TarOp) : List Nat :=
  runTarOps ops ++ List.replicate (finalOwed ops 0) 0 ++ List.replicate 1024 0

/-- Translation of `toDistTar` (src/create_asset_cache.go:137-182): the
writer calls it makes, in order.  `path.Join` on the slash-free components
used here is plain `/`-concatenation.  The blob is fully read into a buffer
first, so the regular file entry's `Size` is the blob's byte length. -/
def cnbDirHeader : TarHeader :=
  { typeflag := 53, name := "cnb", mode := 0o755, size := 0,
    modTime := NormalizedDateTime }

def assetsDirHeader : TarHeader :=
  { typeflag := 53, name := "cnb/assets", mode := 0o755, size := 0,
    modTime := NormalizedDateTime }

def assetFileHeader (blobSha : String) (n : Nat) : TarHeader :=
  { typeflag := 48, name := "/cnb/assets/" ++ blobSha, mode := 0o755,
    size := n, modTime := NormalizedDateTime }

def toDistTarOps (blobSha : String) (blobBytes : List Nat) : List TarOp :=
  [ .writeHeader cnbDirHeader,
    .writeHeader assetsDirHeader,
    .writeHeader (assetFileHeader blobSha blobBytes.length),
    .write blobBytes ]

/-- The raw uncompressed tar byte stream written for one asset: exactly the
bytes that reach both the layer file and the digest hash through the
`io.MultiWriter` in `Save` (src/create_asset_cache.go:104-108). -/
def packBytes (blobSha : String) (blobBytes : List Nat) : List Nat :=
  runTarOps (toDistTarOps blobSha blobBytes)

/-! ## Hex digests -/

/-- Lowercase hex digit, as Go's `%x` prints it. -/
def hexDigit (n : Nat) : Char := if n < 10 then Char.ofNat (48 + n) else Char.ofNat (87 + n)

/-- Two lowercase hex digits of one byte. -/
def hexByte (b : Nat) : List Char := [hexDigit (b / 16 % 16), hexDigit (b % 16)]

/-- Go `fmt.Sprintf("%x", bs)` on a byte slice: lowercase hex, two digits per
byte. -/
def hexBytes (bs : List Nat) : String := ⟨bs.flatMap hexByte⟩

/-- The `LayerDiffID` recorded for a packed asset
(src/create_asset_cache.go:98-116): the hash is fed, through the
`io.MultiWriter`, exactly the tar stream written to the layer file, and the
result is formatted as `fmt.Sprintf("%s:%x", "sha256", hash.Sum(nil))`.
`hash` abstracts `crypto/sha256` (an external collaborator): any function
from the digested byte stream to the digest bytes. -/
def packDiffID (hash : List Nat → List Nat) (blobSha : String) (blobBytes : List Nat) : String :=
  "sha256:" ++ hexBytes (hash (packBytes blobSha blobBytes))

/-! ## Label JSON

`Save` serializes the label map with `encoding/json`, which writes a JSON
object with its keys in ascending string order, each value a JSON object of
the struct's fields.  The field key names and order are modelled from the
spec's label schema `{ID, Name, Version, Sha256, Stacks: [string], URI,
LayerDiffID}` (the `dist.Asset` struct declaration is not under `src/`).
`json.Encoder.Encode` appends a trailing newline. -/

/-- One character of Go `encoding/json` string escaping (HTML escaping on,
as `json.NewEncoder` defaults to). -/
def jsonEscapeChar (c : Char) : List Char :=
  if c = '"' then ['\\', '"']
  else if c = '\\' then ['\\', '\\']
  else if c = '\n' then ['\\', 'n']
  else if c = '\r' then ['\\', 'r']
  else if c = '\t' then ['\\', 't']
  else if c = '<' then "\\u003c".data
  else if c = '>' then "\\u003e".data
  else if c = '&' then "\\u0026".data
  else if c.toNat < 32 then "\\u00".data ++ hexByte c.toNat
  else [c]

/-- Go `encoding/json` escaping of a string body. -/
def jsonEscape (s : String) : String := ⟨s.data.flatMap jsonEscapeChar⟩

/-- A JSON string literal. -/
def jsonStr (s : String) : String := "\"" ++ jsonEscape s ++ "\""

/-- A JSON array of strings. -/
def jsonStrList (l : List String) : String :=
  "[" ++ String.intercalate "," (l.map jsonStr) ++ "]"

/-- The JSON object for one `Asset` value of the label map. -/
def jsonAsset (a : Asset) : String :=
  "\x7b" ++
  jsonStr "ID" ++ ":" ++ jsonStr a.ID ++ "," ++
  jsonStr "Name" ++ ":" ++ jsonStr a.Name ++ "," ++
  jsonStr "Version" ++ ":" ++ jsonStr a.Version ++ "," ++
  jsonStr "Sha256" ++ ":" ++ jsonStr a.Sha256 ++ "," ++
  jsonStr "Stacks" ++ ":" ++ jsonStrList a.Stacks ++ "," ++
  jsonStr "URI" ++ ":" ++ jsonStr a.URI ++ "," ++
  jsonStr "LayerDiffID" ++ ":" ++ jsonStr a.LayerDiffID ++
  "\x7d"

/-- Render an optional map value (`none` cannot occur for the keys of the
map itself; it renders as JSON null). -/
def jsonAssetOpt : Option Asset → String
  | some a => jsonAsset a
  | none => "null"

/-- Ascending string sort (`encoding/json` sorts object keys bytewise). -/
def sortStrings (l : List String) : List String := l.insertionSort (· ≤ ·)

/-- The label value produced by `json.NewEncoder(..).Encode(assetLabel)` in
`Save` (src/create_asset_cache.go:122-126): a JSON object over the map's
keys in ascending order, plus the encoder's trailing newline. -/
def encodeLabel (label : List (String × Asset)) : String :=
  let ks := sortStrings (label.map (·.1))
  "\x7b" ++
    String.intercalate "," (ks.map (fun k => jsonStr k ++ ":" ++ jsonAssetOpt (lookupMap label k))) ++
  "\x7d\n"

/-! ## The orchestrator

`Client.CreateAssetCache` and `AssetCacheImage.Save` call external
collaborators; `Env` gives each call's response and the run records each
call as an `Event`.  Go `panic` is a distinct outcome: deferred functions
still run while a panic unwinds, so the `defer os.RemoveAll(tmpDir)`
registered in `Save` produces its `removeAll` event on panicking paths
too. -/

/-- One observable call made by a build. -/
inductive Event where
  | newImage (name : String) (daemon : Bool)
  | download (uri : String)
  | tempDirCreated (dir : String)
  | openLayerFile (path : String)
  | fileWritten (path : String) (bytes : List Nat)
  | addLayer (path : String)
  | setLabel (key value : String)
  | saveImage
  | removeAll (dir : String)
deriving Repr, DecidableEq

/-- How a build invocation ends: a normal return of `nil`, a normal return
of an error, or a Go `panic`. -/
inductive BuildResult where
  | ok
  | err (msg : String)
  | panicked (msg : String)
deriving Repr, DecidableEq

/-- Responses of the external collaborators.  `parseTag` models
`name.NewTag(_, name.WeakValidation)` followed by `tag.String()`;
`newImageErr`, `addLayerErr`, `setLabelErr`, `saveErr` model the fallible
image-store calls; `tempDir` and `openFileErr` model the filesystem;
`download` models `downloader.Download` and yields the blob's bytes;
`hash` models `crypto/sha256` (`v1.Hasher("sha256")`). -/
structure Env where
  parseTag : String → Except String String
  newImageErr : String → Option String
  tempDir : Except String String
  openFileErr : String → Option String
  download : String → Except String (List Nat)
  addLayerErr : String → Option String
  setLabelErr : String → String → Option String
  saveErr : Option String
  hash : List Nat → List Nat

/-- The outcome of a build: the calls it made, in order, how it ended, and
the label map it assembled (empty unless the per-asset loop completed). -/
structure RunResult where
  trace : List Event
  result : BuildResult
  label : List (String × Asset)
deriving Repr

/-- `pack.CreateAssetCacheOptions`. -/
structure CreateAssetCacheOptions where
  ImageName : String
  Assets : List Asset

/-- Translation of `validateConfig` (src/create_asset_cache.go:197-205):
parse the image name, wrap a parse failure as
`"invalid asset cache image name: %q"`, and return options holding only the
canonical tag string (the assets field is dropped, as in the source). -/
def validateConfig (env : Env) (cfg : CreateAssetCacheOptions) :
    Except String CreateAssetCacheOptions :=
  match env.parseTag cfg.ImageName with
  | .error e => .error ("invalid asset cache image name: " ++ "\"" ++ e ++ "\"")
  | .ok t => .ok { ImageName := t, Assets := [] }

/-- Translation of `Client.downloadAssets` (src/create_asset_cache.go:184-195):
one `Download` call per input asset, in order, storing each blob under the
asset's `Sha256`; the first failure stops the loop and returns the error
(with an empty map). -/
def downloadAssets (env : Env) :
    List Asset → List (String × List Nat) →
    List Event × Except String (List (String × List Nat))
  | [], acc => ([], .ok acc)
  | a :: rest, acc =>
    match env.download a.URI with
    | .error e => ([.download a.URI], .error e)
    | .ok b =>
      let out := downloadAssets env rest (mapSet acc a.Sha256 b)
      (.download a.URI :: out.1, out.2)

/-- Translation of the per-asset loop of `AssetCacheImage.Save`
(src/create_asset_cache.go:82-120).  For each asset in list order: look up
its blob (a missing blob panics), open the layer file (failure panics),
write the tar stream — which simultaneously feeds the layer file and the
digest hash through `io.MultiWriter` — call `AddLayer` (failure panics),
then record the asset, with `LayerDiffID` set, in the label map.  The
`Except` error carries the panic message. -/
def saveLoop (env : Env) (tmp : String) (m : List (String × List Nat)) :
    List Asset → List (String × Asset) →
    List Event × Except String (List (String × Asset))
  | [], label => ([], .ok label)
  | a :: rest, label =>
    match lookupMap m a.Sha256 with
    | none => ([], .error "associated asset blob does not exist")
    | some b =>
      let layerPath := tmp ++ "/" ++ a.Sha256
      match env.openFileErr layerPath with
      | some e => ([.openLayerFile layerPath], .error e)
      | none =>
        match env.addLayerErr layerPath with
        | some e => ([.openLayerFile layerPath,
                      .fileWritten layerPath (packBytes a.Sha256 b),
                      .addLayer layerPath], .error e)
        | none =>
          let out := saveLoop env tmp m rest
            (mapSet label a.Sha256
              { a with LayerDiffID := packDiffID env.hash a.Sha256 b })
          (.openLayerFile layerPath ::
           .fileWritten layerPath (packBytes a.Sha256 b) ::
           .addLayer layerPath :: out.1, out.2)

/-- Translation of `AssetCacheImage.Save` (src/create_asset_cache.go:73-135):
create the scratch directory (failure panics, before the cleanup is
registered), register `defer os.RemoveAll(tmpDir)`, run the per-asset loop,
encode the label, call `SetLabel` (failure panics), call the image save and
return its error.  The deferred removal runs on every exit reached after the
directory was created, panics included. -/
def Save (env : Env) (m : List (String × List Nat)) (assets : List Asset) : RunResult :=
  match env.tempDir with
  | .error e => { trace := [], result := .panicked e, label := [] }
  | .ok tmp =>
    let out := saveLoop env tmp m assets []
    match out.2 with
    | .error e =>
      { trace := .tempDirCreated tmp :: out.1 ++ [.removeAll tmp],
        result := .panicked e, label := [] }
    | .ok label =>
      let labelJSON := encodeLabel label
      match env.setLabelErr AssetLayersLabel labelJSON with
      | some e =>
        { trace := .tempDirCreated tmp :: out.1 ++
            [.setLabel AssetLayersLabel labelJSON, .removeAll tmp],
          result := .panicked e, label := label }
      | none =>
        match env.saveErr with
        | some e =>
          { trace := .tempDirCreated tmp :: out.1 ++
              [.setLabel AssetLayersLabel labelJSON, .saveImage, .removeAll tmp],
            result := .err e, label := label }
        | none =>
          { trace := .tempDirCreated tmp :: out.1 ++
              [.setLabel AssetLayersLabel labelJSON, .saveImage, .removeAll tmp],
            result := .ok, label := label }

/-- Translation of `Client.CreateAssetCache` (src/create_asset_cache.go:52-71):
validate the options (an invalid name returns before any collaborator call),
create the image (failure returns `"unable to create asset cache image: %q"`),
download the assets (failure panics, line 66), then run `Save` on a fresh
`AssetCacheImage` built from the image, the blob map and the original asset
list. -/
def CreateAssetCache (env : Env) (opts : CreateAssetCacheOptions) : RunResult :=
  match validateConfig env opts with
  | .error e => { trace := [], result := .err e, label := [] }
  | .ok validOpts =>
    match env.newImageErr validOpts.ImageName with
    | some e =>
      { trace := [.newImage validOpts.ImageName true],
        result := .err ("unable to create asset cache image: " ++ "\"" ++ e ++ "\""),
        label := [] }
    | none =>
      let dl := downloadAssets env opts.Assets []
      match dl.2 with
      | .error e =>
        { trace := .newImage validOpts.ImageName true :: dl.1,
          result := .panicked e, label := [] }
      | .ok m =>
        let s := Save env m opts.Assets
        { trace := .newImage validOpts.ImageName true :: dl.1 ++ s.trace,
          result := s.result, label := s.label }

/-! ## The CLI layer -/

/-- Modelled from the usage in `getAssets`: one inspected buildpack with its
asset list (`pack.BuildpackInfo` is not under `src/`; only its `Buildpacks`
field, each member carrying an `Assets` list, is used). -/
structure BuildpackRecord where
  Assets : List Asset

/-- Modelled from the usage in `getAssets`: the buildpack inspection result. -/
structure BuildpackInfo where
  Buildpacks : List BuildpackRecord

/-- Ascending insertion sort by asset `ID` (`sort.Slice` with
`result[i].ID < result[j].ID`). -/
def sortByID (l : List Asset) : List Asset :=
  l.insertionSort (fun a b => a.ID ≤ b.ID)

/-- Translation of `getAssets` (src/internal/commands/create_asset_cache.go:129-148):
collect every inspected asset into a map keyed by `Sha256` (later
occurrences overwrite earlier ones), take the map's values — Go iterates a
map in unspecified order; the model reads the entries in their stored
order, which the final sort makes irrelevant — and sort them by `ID`. -/
def getAssets (info : BuildpackInfo) : List Asset :=
  let assetMap := info.Buildpacks.foldl
    (fun m bp => bp.Assets.foldl (fun m a => mapSet m a.Sha256 a) m)
    ([] : List (String × Asset))
  sortByID (assetMap.map (·.2))

/-! ## Map and lookup lemmas -/

/-- Keys of a modelled Go map. -/
def keysOf {α : Type} (m : List (String × α)) : List String := m.map (·.1)

/-! ## The blob that ends up packed for a hash

`downloadAssets` stores each blob under its asset's `Sha256`, so when several
input assets share a hash the blob of the last of them wins. -/

/-- The last input asset carrying the given `Sha256`, if any. -/
def findLastAsset : List Asset → String → Option Asset
  | [], _ => none
  | a :: rest, s =>
    match findLastAsset rest s with
    | some b => some b
    | none => if a.Sha256 == s then some a else none

/-- The blob bytes a successful download yields (total on `Except`). -/
def dlBytes (env : Env) (uri : String) : List Nat := (env.download uri).toOption.getD []

/-- The blob map `downloadAssets` builds, as a fold. -/
def dlFold (env : Env) (assets : List Asset) (acc : List (String × List Nat)) :
    List (String × List Nat) :=
  assets.foldl (fun m a => mapSet m a.Sha256 (dlBytes env a.URI)) acc

/-- The blob map of a whole run. -/
def dlMap (env : Env) (assets : List Asset) : List (String × List Nat) :=
  dlFold env assets []

/-! ## The label map a successful run assembles -/

/-- The blob stored for a hash (total on `Option`). -/
def blobGet (m : List (String × List Nat)) (s : String) : List Nat := (lookupMap m s).getD []

/-- An asset as it enters the label map: the input record with `LayerDiffID`
set to the digest of its packed tar stream. -/
def packedAsset (hash : List Nat → List Nat) (m : List (String × List Nat)) (a : Asset) :
    Asset :=
  { a with LayerDiffID := packDiffID hash a.Sha256 (blobGet m a.Sha256) }

/-- The label map `Save`'s loop builds, as a fold. -/
def labelFold (env : Env) (m : List (String × List Nat)) (assets : List Asset)
    (label : List (String × Asset)) : List (String × Asset) :=
  assets.foldl (fun lab a => mapSet lab a.Sha256 (packedAsset env.hash m a)) label

/-- The label map of a whole successful run. -/
def finalLabel (env : Env) (assets : List Asset) : List (String × Asset) :=
  labelFold env (dlMap env assets) assets []

/-! ## Concrete instances used to exercise the theorems -/

/-- A fully cooperative environment: every collaborator call succeeds.  The
hash collaborator returns a fixed 32-byte digest, as `crypto/sha256` does by
length. -/
def okEnv : Env where
  parseTag := fun s => if s = "::::" then .error "could not parse reference" else .ok s
  newImageErr := fun _ => none
  tempDir := .ok "tmp"
  openFileErr := fun _ => none
  download := fun _ => .ok [7, 8]
  addLayerErr := fun _ => none
  setLabelErr := fun _ _ => none
  saveErr := none
  hash := fun _ => List.replicate 32 0

/-- An environment whose downloader always fails. -/
def fetchFailEnv : Env :=
  { okEnv with download := fun _ => .error "download failed" }

def sampleAsset : Asset :=
  { ID := "a", Name := "A", Version := "1", Sha256 := "s1", Stacks := ["st"],
    URI := "u1", LayerDiffID := "" }

/-- Same `Sha256` as `sampleAsset`, different identity fields. -/
def sampleAssetDup : Asset := { sampleAsset with ID := "b", Name := "B" }

/-- A distinct content hash. -/
def sampleAsset2 : Asset :=
  { sampleAsset with ID := "b", Name := "B", Sha256 := "s2", URI := "u2" }

/-- Number of `Download` calls in a trace. -/
def countDownloads (tr : List Event) : Nat :=
  tr.countP (fun e => match e with | .download _ => true | _ => false)

/-- Number of `AddLayer` calls in a trace. -/
def countAddLayers (tr : List Event) : Nat :=
  tr.countP (fun e => match e with | .addLayer _ => true | _ => false)

/-- The blob bytes a run packs for hash `s`: the successful download of the
last input asset carrying `s`. -/
def assetBlob (env : Env) (assets : List Asset) (s : String) : Option (List Nat) :=
  match findLastAsset assets s with
  | some a => (env.download a.URI).toOption
  | none => none

/-! ## Map and lookup lemmas (continued) -/

theorem lookupMap_mapSet_self {α : Type} (m : List (String × α)) (k : String) (v : α) :
    lookupMap (mapSet m k v) k = some v := by
  unfold lookupMap mapSet
  rw [List.find?_append]
  have h : (m.filter (fun p => p.1 != k)).find? (fun p => p.1 == k) = none := by
    apply List.find?_eq_none.mpr
    intro p hp
    have hne := (List.mem_filter.mp hp).2
    simp only [bne_iff_ne, ne_eq] at hne
    simp [hne]
  simp [h]

theorem lookupMap_mapSet_ne {α : Type} (m : List (String × α)) (k k' : String) (v : α)
    (h : k' ≠ k) : lookupMap (mapSet m k v) k' = lookupMap m k' := by
  unfold lookupMap mapSet
  rw [List.find?_append]
  have h2 : List.find? (fun p => p.1 == k') [(k, v)] = none := by
    have hk : (k == k') = false := by simp [Ne.symm h]
    simp [List.find?, hk]
  rw [h2]
  have h3 : (m.filter (fun p => p.1 != k)).find? (fun p => p.1 == k') =
      m.find? (fun p => p.1 == k') := by
    induction m with
    | nil => rfl
    | cons p rest ih =>
      by_cases hp : p.1 = k
      · rw [List.filter_cons_of_neg (by simp [hp]), ih,
          List.find?_cons_of_neg _ (by simp [hp, Ne.symm h])]
      · by_cases hq : p.1 = k'
        · rw [List.filter_cons_of_pos (by simp [hp]),
            List.find?_cons_of_pos _ (by simp [hq]),
            List.find?_cons_of_pos _ (by simp [hq])]
        · rw [List.filter_cons_of_pos (by simp [hp]),
            List.find?_cons_of_neg _ (by simp [hq]),
            List.find?_cons_of_neg _ (by simp [hq]), ih]
  cases hfind : m.find? (fun p => p.1 == k') <;> simp [h3, hfind]

theorem mem_keysOf_mapSet {α : Type} (m : List (String × α)) (k k' : String) (v : α) :
    k' ∈ keysOf (mapSet m k v) ↔ k' = k ∨ k' ∈ keysOf m := by
  unfold keysOf mapSet
  simp only [List.map_append, List.mem_append, List.map_cons, List.map_nil,
    List.mem_singleton, List.mem_map]
  constructor
  · rintro (⟨p, hp, rfl⟩ | h)
    · exact Or.inr ⟨p, (List.mem_filter.mp hp).1, rfl⟩
    · exact Or.inl h
  · rintro (rfl | ⟨p, hp, rfl⟩)
    · exact Or.inr rfl
    · by_cases hpk : p.1 = k
      · exact Or.inr hpk
      · exact Or.inl ⟨p, List.mem_filter.mpr ⟨hp, by simp [hpk]⟩, rfl⟩

theorem keysOf_mapSet_nodup {α : Type} (m : List (String × α)) (k : String) (v : α)
    (h : (keysOf m).Nodup) : (keysOf (mapSet m k v)).Nodup := by
  unfold keysOf mapSet
  rw [List.map_append]
  apply List.Nodup.append
  · exact (List.Sublist.map _ (List.filter_sublist m)).nodup h
  · simp
  · intro x hx hy
    simp only [List.map_cons, List.map_nil, List.mem_singleton] at hy
    subst hy
    obtain ⟨p, hp, rfl⟩ := List.mem_map.mp hx
    have := (List.mem_filter.mp hp).2
    simp at this

theorem mapSet_fresh {α : Type} (m : List (String × α)) (k : String) (v : α)
    (h : k ∉ keysOf m) : mapSet m k v = m ++ [(k, v)] := by
  unfold mapSet
  congr 1
  apply List.filter_eq_self.mpr
  intro p hp
  have : p.1 ≠ k := fun he => h (he ▸ List.mem_map.mpr ⟨p, hp, rfl⟩)
  simp [this]

theorem downloadAssets_ok (env : Env) (assets : List Asset)
    (acc : List (String × List Nat))
    (h : ∀ a ∈ assets, ∃ b, env.download a.URI = .ok b) :
    downloadAssets env assets acc =
      (assets.map (fun a => .download a.URI), .ok (dlFold env assets acc)) := by
  induction assets generalizing acc with
  | nil => rfl
  | cons a rest ih =>
    obtain ⟨b, hb⟩ := h a (List.mem_cons_self a rest)
    have hrest : ∀ x ∈ rest, ∃ b, env.download x.URI = .ok b :=
      fun x hx => h x (List.mem_cons_of_mem a hx)
    have hbb : dlBytes env a.URI = b := by rw [dlBytes, hb]; rfl
    simp only [downloadAssets, hb, ih _ hrest, dlFold, List.foldl_cons, List.map_cons, hbb]

theorem lookupMap_dlFold (env : Env) (assets : List Asset)
    (acc : List (String × List Nat)) (s : String) :
    lookupMap (dlFold env assets acc) s =
      match findLastAsset assets s with
      | some a => some (dlBytes env a.URI)
      | none => lookupMap acc s := by
  induction assets generalizing acc with
  | nil => rfl
  | cons a rest ih =>
    show lookupMap (dlFold env rest (mapSet acc a.Sha256 (dlBytes env a.URI))) s = _
    rw [ih]
    cases hfind : findLastAsset rest s with
    | some b => simp [findLastAsset, hfind]
    | none =>
      by_cases hs : a.Sha256 = s
      · subst hs
        simp [findLastAsset, hfind, lookupMap_mapSet_self]
      · have : (a.Sha256 == s) = false := by simp [hs]
        simp [findLastAsset, hfind, this, lookupMap_mapSet_ne _ _ _ _ (Ne.symm hs)]

theorem findLastAsset_isSome_of_mem (assets : List Asset) (a : Asset) (h : a ∈ assets) :
    (findLastAsset assets a.Sha256).isSome := by
  induction assets with
  | nil => cases h
  | cons x rest ih =>
    rcases List.mem_cons.mp h with rfl | hmem
    · cases hfind : findLastAsset rest a.Sha256 <;> simp [findLastAsset, hfind]
    · have := ih hmem
      cases hfind : findLastAsset rest a.Sha256 with
      | some b => simp [findLastAsset, hfind]
      | none => rw [hfind] at this; cases this

theorem findLastAsset_mem_and_sha (assets : List Asset) (s : String) (a : Asset)
    (h : findLastAsset assets s = some a) : a ∈ assets ∧ a.Sha256 = s := by
  induction assets with
  | nil => cases h
  | cons x rest ih =>
    unfold findLastAsset at h
    cases hfind : findLastAsset rest s with
    | some b =>
      rw [hfind] at h
      cases h
      exact ⟨List.mem_cons_of_mem x (ih hfind).1, (ih hfind).2⟩
    | none =>
      rw [hfind] at h
      by_cases hs : x.Sha256 = s
      · simp only [hs, beq_self_eq_true, if_true] at h
        cases h
        exact ⟨List.mem_cons_self _ _, hs⟩
      · simp [hs] at h

theorem findLastAsset_eq_none_iff (assets : List Asset) (s : String) :
    findLastAsset assets s = none ↔ ∀ a ∈ assets, a.Sha256 ≠ s := by
  induction assets with
  | nil => simp [findLastAsset]
  | cons x rest ih =>
    unfold findLastAsset
    cases hfind : findLastAsset rest s with
    | some b =>
      have hb := findLastAsset_mem_and_sha rest s b hfind
      constructor
      · intro h; cases h
      · intro h; exact absurd hb.2 (h b (List.mem_cons_of_mem x hb.1))
    | none =>
      by_cases hs : x.Sha256 = s
      · constructor
        · intro h; simp [hs] at h
        · intro h; exact absurd hs (h x (List.mem_cons_self x rest))
      · have hif : (if x.Sha256 == s then some x else none) = none := by simp [hs]
        rw [hif]
        constructor
        · intro _ a ha
          rcases List.mem_cons.mp ha with rfl | hmem
          · exact hs
          · exact (ih.mp hfind) a hmem
        · intro _; rfl

theorem saveLoop_ok (env : Env) (tmp : String) (m : List (String × List Nat))
    (assets : List Asset) (label : List (String × Asset))
    (hm : ∀ a ∈ assets, (lookupMap m a.Sha256).isSome)
    (hopen : ∀ p, env.openFileErr p = none)
    (hadd : ∀ p, env.addLayerErr p = none) :
    saveLoop env tmp m assets label =
      (assets.flatMap (fun a =>
        [.openLayerFile (tmp ++ "/" ++ a.Sha256),
         .fileWritten (tmp ++ "/" ++ a.Sha256) (packBytes a.Sha256 (blobGet m a.Sha256)),
         .addLayer (tmp ++ "/" ++ a.Sha256)]),
       .ok (labelFold env m assets label)) := by
  induction assets generalizing label with
  | nil => rfl
  | cons a rest ih =>
    have hsome := hm a (List.mem_cons_self a rest)
    obtain ⟨b, hb⟩ := Option.isSome_iff_exists.mp hsome
    have hbg : blobGet m a.Sha256 = b := by rw [blobGet, hb]; rfl
    have hrest : ∀ x ∈ rest, (lookupMap m x.Sha256).isSome :=
      fun x hx => hm x (List.mem_cons_of_mem a hx)
    simp only [saveLoop, hb, hopen, hadd, ih _ hrest, labelFold, List.foldl_cons,
      List.flatMap_cons, packedAsset, hbg, List.cons_append, List.nil_append]

theorem keysOf_labelFold_nodup (env : Env) (m : List (String × List Nat))
    (assets : List Asset) (label : List (String × Asset))
    (h : (keysOf label).Nodup) : (keysOf (labelFold env m assets label)).Nodup := by
  induction assets generalizing label with
  | nil => exact h
  | cons a rest ih =>
    exact ih _ (keysOf_mapSet_nodup _ _ _ h)

theorem mem_keysOf_labelFold (env : Env) (m : List (String × List Nat))
    (assets : List Asset) (label : List (String × Asset)) (k : String) :
    k ∈ keysOf (labelFold env m assets label) ↔
      k ∈ assets.map (·.Sha256) ∨ k ∈ keysOf label := by
  induction assets generalizing label with
  | nil => simp [labelFold]
  | cons a rest ih =>
    show k ∈ keysOf (labelFold env m rest (mapSet label a.Sha256 _)) ↔ _
    rw [ih, mem_keysOf_mapSet]
    simp only [List.map_cons, List.mem_cons]
    tauto

theorem lookupMap_labelFold (env : Env) (m : List (String × List Nat))
    (assets : List Asset) (label : List (String × Asset)) (s : String) :
    lookupMap (labelFold env m assets label) s =
      match findLastAsset assets s with
      | some a => some (packedAsset env.hash m a)
      | none => lookupMap label s := by
  induction assets generalizing label with
  | nil => rfl
  | cons a rest ih =>
    show lookupMap (labelFold env m rest (mapSet label a.Sha256 _)) s = _
    rw [ih]
    cases hfind : findLastAsset rest s with
    | some b => simp [findLastAsset, hfind]
    | none =>
      by_cases hs : a.Sha256 = s
      · subst hs
        simp [findLastAsset, hfind, lookupMap_mapSet_self]
      · have hbeq : (a.Sha256 == s) = false := by simp [hs]
        simp [findLastAsset, hfind, hbeq, lookupMap_mapSet_ne _ _ _ _ (Ne.symm hs)]

theorem labelFold_nodup_shape (env : Env) (m : List (String × List Nat))
    (assets : List Asset) (label : List (String × Asset))
    (hnd : (assets.map (·.Sha256)).Nodup)
    (hdisj : ∀ a ∈ assets, a.Sha256 ∉ keysOf label) :
    labelFold env m assets label =
      label ++ assets.map (fun a => (a.Sha256, packedAsset env.hash m a)) := by
  induction assets generalizing label with
  | nil => simp [labelFold]
  | cons a rest ih =>
    show labelFold env m rest (mapSet label a.Sha256 _) = _
    rw [mapSet_fresh _ _ _ (hdisj a (List.mem_cons_self a rest))]
    have hnd' : (rest.map (·.Sha256)).Nodup := (List.nodup_cons.mp hnd).2
    have hdisj' : ∀ x ∈ rest, x.Sha256 ∉ keysOf (label ++ [(a.Sha256, packedAsset env.hash m a)]) := by
      intro x hx hmem
      rw [keysOf, List.map_append] at hmem
      rcases List.mem_append.mp hmem with hl | hr
      · exact hdisj x (List.mem_cons_of_mem a hx) hl
      · simp only [List.map_cons, List.map_nil, List.mem_singleton] at hr
        exact (List.nodup_cons.mp hnd).1 (List.mem_map.mpr ⟨x, hx, hr⟩)
    rw [ih _ hnd' hdisj']
    simp [List.append_assoc]

/-! ## The shape of a fully successful run -/

theorem createAssetCache_run (env : Env) (opts : CreateAssetCacheOptions) (t d : String)
    (hname : env.parseTag opts.ImageName = .ok t)
    (himg : env.newImageErr t = none)
    (hdl : ∀ a ∈ opts.Assets, ∃ b, env.download a.URI = .ok b)
    (htmp : env.tempDir = .ok d)
    (hopen : ∀ p, env.openFileErr p = none)
    (hadd : ∀ p, env.addLayerErr p = none)
    (hset : ∀ k v, env.setLabelErr k v = none)
    (hsave : env.saveErr = none) :
    CreateAssetCache env opts =
      { trace := .newImage t true :: opts.Assets.map (fun a => .download a.URI) ++
          (.tempDirCreated d :: (opts.Assets.flatMap (fun a =>
             [.openLayerFile (d ++ "/" ++ a.Sha256),
              .fileWritten (d ++ "/" ++ a.Sha256)
                (packBytes a.Sha256 (blobGet (dlMap env opts.Assets) a.Sha256)),
              .addLayer (d ++ "/" ++ a.Sha256)]) ++
            [.setLabel AssetLayersLabel (encodeLabel (finalLabel env opts.Assets)),
             .saveImage, .removeAll d])),
        result := .ok,
        label := finalLabel env opts.Assets } := by
  have hmm : ∀ a ∈ opts.Assets, (lookupMap (dlFold env opts.Assets []) a.Sha256).isSome := by
    intro a ha
    rw [lookupMap_dlFold]
    have hf := findLastAsset_isSome_of_mem _ a ha
    cases hfind : findLastAsset opts.Assets a.Sha256 with
    | some b => rfl
    | none => rw [hfind] at hf; cases hf
  simp only [CreateAssetCache, validateConfig, hname, himg,
    downloadAssets_ok env _ _ hdl, Save, htmp,
    saveLoop_ok env d (dlFold env opts.Assets []) opts.Assets [] hmm hopen hadd,
    hset, hsave, finalLabel, dlMap, List.cons_append]

/-! ## Byte-level facts about the tar stream -/

theorem octalCore_mem (fuel n x : Nat) (hx : x ∈ octalCore fuel n) : 48 ≤ x ∧ x ≤ 55 := by
  induction fuel generalizing n with
  | zero => cases hx
  | succ fuel ih =>
    unfold octalCore at hx
    by_cases h : n < 8
    · simp only [h, if_true, List.mem_singleton] at hx
      omega
    · simp only [h, if_false, List.mem_append, List.mem_singleton] at hx
      rcases hx with h1 | h2
      · exact ih _ h1
      · have : n % 8 < 8 := Nat.mod_lt _ (by omega)
        omega

theorem octal_mem (n x : Nat) (hx : x ∈ octal n) : 48 ≤ x ∧ x ≤ 55 :=
  octalCore_mem _ _ _ hx

theorem octalCore_length_le (fuel : Nat) : ∀ k n : Nat, n < fuel → 1 ≤ k → n < 8 ^ k →
    (octalCore fuel n).length ≤ k := by
  induction fuel with
  | zero => intro k n h; omega
  | succ fuel ih =>
    intro k n hfuel hk hn
    unfold octalCore
    by_cases h : n < 8
    · simpa [h] using hk
    · simp only [h, if_false, List.length_append, List.length_singleton]
      have hk2 : 2 ≤ k := by
        by_contra hlt
        have hk1 : k = 1 := by omega
        subst hk1
        simp at hn
        omega
      have h1 : n / 8 < fuel := by
        have := Nat.div_lt_self (show 0 < n by omega) (show 1 < 8 by omega)
        omega
      have h2 : n / 8 < 8 ^ (k - 1) := by
        rw [Nat.div_lt_iff_lt_mul (by omega)]
        calc n < 8 ^ k := hn
          _ = 8 ^ (k - 1) * 8 := by
            rw [← pow_succ]
            congr 1
            omega
      have := ih (k - 1) (n / 8) h1 (by omega) h2
      omega

theorem octal_length_le (k n : Nat) (hk : 1 ≤ k) (hn : n < 8 ^ k) :
    (octal n).length ≤ k :=
  octalCore_length_le _ _ _ (Nat.lt_succ_self n) hk hn

theorem padTo_length (w : Nat) (bs : List Nat) (h : bs.length ≤ w) :
    (padTo w bs).length = w := by
  simp only [padTo, List.length_append, List.length_replicate]
  omega

theorem formatOctal_length (w n : Nat) (hw : 1 ≤ w) (h : (octal n).length ≤ w - 1) :
    (formatOctal w n).length = w := by
  rw [formatOctal, padTo_length]
  simp only [List.length_append, List.length_replicate]
  omega

theorem formatOctal_mem (w n x : Nat) (hx : x ∈ formatOctal w n) : x ≤ 55 := by
  simp only [formatOctal, padTo, List.mem_append, List.mem_replicate] at hx
  rcases hx with (h1 | h2) | h3
  · omega
  · exact (octal_mem _ _ h2).2
  · omega

theorem asciiBytes_length (s : String) : (asciiBytes s).length = s.length := by
  rw [asciiBytes, List.length_map]
  rfl

theorem headerPre_length (h : TarHeader)
    (hname : h.name.length ≤ 100)
    (hmode : (octal h.mode).length ≤ 7)
    (hsize : (octal h.size).length ≤ 11)
    (htime : (octal h.modTime).length ≤ 11) :
    (headerPre h).length = 148 := by
  have h1 : (padTo 100 (asciiBytes h.name)).length = 100 :=
    padTo_length _ _ (by rw [asciiBytes_length]; exact hname)
  have h2 : (formatOctal 8 h.mode).length = 8 := formatOctal_length _ _ (by omega) (by omega)
  have h0 : (octal 0).length ≤ 7 := by decide
  have h3 : (formatOctal 8 0).length = 8 := formatOctal_length _ _ (by omega) (by omega)
  have h4 : (formatOctal 12 h.size).length = 12 := formatOctal_length _ _ (by omega) (by omega)
  have h5 : (formatOctal 12 h.modTime).length = 12 :=
    formatOctal_length _ _ (by omega) (by omega)
  simp only [headerPre, List.length_append, h1, h2, h3, h4, h5]

theorem headerPost_length (h : TarHeader) : (headerPost h).length = 356 := by
  have h3 : (formatOctal 8 0).length = 8 := by decide
  have h4 : (asciiBytes "ustar").length = 5 := by decide
  simp only [headerPost, List.length_append, List.length_replicate, h3, h4,
    List.length_singleton, List.length_cons, List.length_nil]

theorem mem_append_le {l₁ l₂ : List Nat} {n : Nat} (h₁ : ∀ x ∈ l₁, x ≤ n)
    (h₂ : ∀ x ∈ l₂, x ≤ n) : ∀ x ∈ l₁ ++ l₂, x ≤ n := by
  intro x hx
  rcases List.mem_append.mp hx with h | h
  exacts [h₁ x h, h₂ x h]

theorem mem_replicate_le (k v n : Nat) (h : v ≤ n) : ∀ x ∈ List.replicate k v, x ≤ n :=
  fun _ hx => (List.eq_of_mem_replicate hx) ▸ h

theorem mem_padTo_le {w : Nat} {bs : List Nat} {n : Nat} (h : ∀ x ∈ bs, x ≤ n) :
    ∀ x ∈ padTo w bs, x ≤ n :=
  mem_append_le h (mem_replicate_le _ _ _ (Nat.zero_le n))

theorem mem_formatOctal_le (w n : Nat) : ∀ x ∈ formatOctal w n, x ≤ 255 :=
  fun x hx => le_trans (formatOctal_mem w n x hx) (by omega)

theorem mem_headerPre_le (hd : TarHeader)
    (hnameAscii : ∀ c ∈ hd.name.data, c.toNat ≤ 255) :
    ∀ x ∈ headerPre hd, x ≤ 255 := by
  intro x hx
  simp only [headerPre, List.mem_append] at hx
  rcases hx with ((((h1 | h2) | h3) | h4) | h5) | h6
  · refine mem_padTo_le ?_ x h1
    intro y hy
    simp only [asciiBytes] at hy
    obtain ⟨c, hc, rfl⟩ := List.mem_map.mp hy
    exact hnameAscii c hc
  · exact mem_formatOctal_le _ _ x h2
  · exact mem_formatOctal_le _ _ x h3
  · exact mem_formatOctal_le _ _ x h4
  · exact mem_formatOctal_le _ _ x h5
  · exact mem_formatOctal_le _ _ x h6

theorem mem_headerPost_le (hd : TarHeader) (htype : hd.typeflag ≤ 255) :
    ∀ x ∈ headerPost hd, x ≤ 255 := by
  intro x hx
  simp only [headerPost, List.mem_append] at hx
  rcases hx with ((((((((h1 | h2) | h3) | h4) | h5) | h6) | h7) | h8) | h9) | h10
  · simp only [List.mem_singleton] at h1
    omega
  · rw [List.eq_of_mem_replicate h2]
    omega
  · rcases h3 with h3 | h3
    · have hs : ∀ y ∈ asciiBytes "ustar", y ≤ 255 := by decide
      exact hs x h3
    · simp only [List.mem_singleton] at h3
      omega
  · have hs : ∀ y ∈ [48, 48], y ≤ 255 := by decide
    exact hs x h4
  · rw [List.eq_of_mem_replicate h5]
    omega
  · rw [List.eq_of_mem_replicate h6]
    omega
  · exact mem_formatOctal_le _ _ x h7
  · exact mem_formatOctal_le _ _ x h8
  · rw [List.eq_of_mem_replicate h9]
    omega
  · rw [List.eq_of_mem_replicate h10]
    omega

theorem headerChk_lt (hd : TarHeader)
    (hname : hd.name.length ≤ 100)
    (hnameAscii : ∀ c ∈ hd.name.data, c.toNat ≤ 255)
    (hmode : (octal hd.mode).length ≤ 7)
    (hsize : (octal hd.size).length ≤ 11)
    (htime : (octal hd.modTime).length ≤ 11)
    (htype : hd.typeflag ≤ 255) :
    headerChk hd < 262144 := by
  have hmem : ∀ x ∈ headerPre hd ++ List.replicate 8 32 ++ headerPost hd, x ≤ 255 := by
    refine mem_append_le (mem_append_le (mem_headerPre_le hd hnameAscii)
      (mem_replicate_le _ _ _ (by omega))) (mem_headerPost_le hd htype)
  have hlen : (headerPre hd ++ List.replicate 8 32 ++ headerPost hd).length = 512 := by
    simp only [List.length_append, List.length_replicate,
      headerPre_length hd hname hmode hsize htime, headerPost_length]
  have hsum := List.sum_le_card_nsmul
    (headerPre hd ++ List.replicate 8 32 ++ headerPost hd) 255 hmem
  rw [hlen, smul_eq_mul] at hsum
  calc headerChk hd ≤ 512 * 255 := hsum
    _ < 262144 := by norm_num

theorem headerBytes_length (hd : TarHeader)
    (hname : hd.name.length ≤ 100)
    (hnameAscii : ∀ c ∈ hd.name.data, c.toNat ≤ 255)
    (hmode : (octal hd.mode).length ≤ 7)
    (hsize : (octal hd.size).length ≤ 11)
    (htime : (octal hd.modTime).length ≤ 11)
    (htype : hd.typeflag ≤ 255) :
    (headerBytes hd).length = 512 := by
  have hchk : headerChk hd < 262144 :=
    headerChk_lt hd hname hnameAscii hmode hsize htime htype
  have hdig : (octal (headerChk hd)).length ≤ 6 :=
    octal_length_le 6 _ (by omega) (by norm_num; omega)
  have hfield : (chksumField (headerChk hd)).length = 8 := by
    rw [chksumField, List.length_append,
      formatOctal_length 7 _ (by omega) (by omega)]
    rfl
  simp only [headerBytes, List.length_append, hfield,
    headerPre_length hd hname hmode hsize htime, headerPost_length]

theorem packBytes_eq (s : String) (b : List Nat) :
    packBytes s b =
      headerBytes cnbDirHeader ++ (headerBytes assetsDirHeader ++
        (headerBytes (assetFileHeader s b.length) ++ b)) := by
  have htp : tarPad 0 = 0 := by decide
  simp only [packBytes, runTarOps, toDistTarOps, runTarOpsAux, cnbDirHeader,
    assetsDirHeader, htp, List.replicate_zero, List.nil_append, List.append_nil]

theorem cnbDirHeader_length : (headerBytes cnbDirHeader).length = 512 :=
  headerBytes_length _ (by decide) (by decide) (by decide) (by decide) (by decide) (by decide)

theorem assetsDirHeader_length : (headerBytes assetsDirHeader).length = 512 :=
  headerBytes_length _ (by decide) (by decide) (by decide) (by decide) (by decide) (by decide)

theorem assetFileHeader_length (s : String) (n : Nat) (hs : s.length ≤ 88)
    (hsa : ∀ c ∈ s.data, c.toNat ≤ 255) (hn : n < 8 ^ 11) :
    (headerBytes (assetFileHeader s n)).length = 512 := by
  apply headerBytes_length
  · show ("/cnb/assets/" ++ s).length ≤ 100
    rw [String.length_append]
    have h12 : ("/cnb/assets/" : String).length = 12 := by decide
    omega
  · intro c hc
    have hdata : ("/cnb/assets/" ++ s).data = "/cnb/assets/".data ++ s.data :=
      String.data_append _ _
    rw [show (assetFileHeader s n).name = "/cnb/assets/" ++ s from rfl, hdata] at hc
    rcases List.mem_append.mp hc with h | h
    · have hfix : ∀ c ∈ "/cnb/assets/".data, c.toNat ≤ 255 := by decide
      exact hfix c h
    · exact hsa c h
  · show (octal 0o755).length ≤ 7
    decide
  · exact octal_length_le 11 n (by omega) hn
  · show (octal NormalizedDateTime).length ≤ 11
    decide
  · show (48 : Nat) ≤ 255
    decide

theorem packBytes_length (s : String) (b : List Nat) (hs : s.length ≤ 88)
    (hsa : ∀ c ∈ s.data, c.toNat ≤ 255) (hn : b.length < 8 ^ 11) :
    (packBytes s b).length = 1536 + b.length := by
  rw [packBytes_eq]
  simp only [List.length_append, cnbDirHeader_length, assetsDirHeader_length,
    assetFileHeader_length s b.length hs hsa hn]
  omega

theorem finalOwed_toDistTar (s : String) (b : List Nat) :
    finalOwed (toDistTarOps s b) 0 = tarPad b.length := rfl

theorem runTarOpsClosed_toDistTar (s : String) (b : List Nat) :
    runTarOpsClosed (toDistTarOps s b) =
      packBytes s b ++ List.replicate (tarPad b.length) 0 ++ List.replicate 1024 0 := by
  rw [runTarOpsClosed, finalOwed_toDistTar]
  rfl

/-! ## Hex digest format -/

theorem hexBytes_length (bs : List Nat) : (hexBytes bs).length = 2 * bs.length := by
  show (bs.flatMap hexByte).length = 2 * bs.length
  induction bs with
  | nil => rfl
  | cons b rest ih =>
    rw [List.flatMap_cons, List.length_append, ih]
    show 2 + 2 * rest.length = 2 * (rest.length + 1)
    omega

theorem hexDigit_mem (m : Nat) (hm : m < 16) :
    hexDigit m ∈ ("0123456789abcdef").data := by
  interval_cases m <;> decide

theorem hexBytes_chars (bs : List Nat) :
    ∀ c ∈ (hexBytes bs).data, c ∈ ("0123456789abcdef").data := by
  intro c hc
  have hc2 : c ∈ bs.flatMap hexByte := hc
  obtain ⟨b, hb, hcb⟩ := List.mem_flatMap.mp hc2
  rcases List.mem_cons.mp hcb with rfl | hcb2
  · exact hexDigit_mem _ (Nat.mod_lt _ (by omega))
  · rcases List.mem_cons.mp hcb2 with rfl | hnil
    · exact hexDigit_mem _ (Nat.mod_lt _ (by omega))
    · cases hnil

/-! ## Shapes of traces on every path -/

theorem downloadAssets_events (env : Env) (assets : List Asset)
    (acc : List (String × List Nat)) :
    ∀ e ∈ (downloadAssets env assets acc).1, ∃ u, e = .download u := by
  induction assets generalizing acc with
  | nil => intro e he; cases he
  | cons a rest ih =>
    intro e he
    unfold downloadAssets at he
    cases hdl : env.download a.URI with
    | error msg =>
      rw [hdl] at he
      simp only [List.mem_singleton] at he
      exact ⟨a.URI, he⟩
    | ok b =>
      rw [hdl] at he
      simp only [List.mem_cons] at he
      rcases he with rfl | hmem
      · exact ⟨a.URI, rfl⟩
      · exact ih _ e hmem

theorem saveLoop_events (env : Env) (tmp : String) (m : List (String × List Nat))
    (assets : List Asset) (label : List (String × Asset)) :
    ∀ e ∈ (saveLoop env tmp m assets label).1,
      (∃ p, e = .openLayerFile p) ∨ (∃ p bs, e = .fileWritten p bs) ∨
      (∃ p, e = .addLayer p) := by
  induction assets generalizing label with
  | nil => intro e he; cases he
  | cons a rest ih =>
    intro e he
    cases hlk : lookupMap m a.Sha256 with
    | none => simp only [saveLoop, hlk] at he; cases he
    | some b =>
      cases hop : env.openFileErr (tmp ++ "/" ++ a.Sha256) with
      | some msg =>
        simp only [saveLoop, hlk, hop, List.mem_singleton] at he
        exact Or.inl ⟨_, he⟩
      | none =>
        cases had : env.addLayerErr (tmp ++ "/" ++ a.Sha256) with
        | some msg =>
          simp only [saveLoop, hlk, hop, had, List.mem_cons, List.not_mem_nil, or_false] at he
          rcases he with rfl | rfl | rfl
          · exact Or.inl ⟨_, rfl⟩
          · exact Or.inr (Or.inl ⟨_, _, rfl⟩)
          · exact Or.inr (Or.inr ⟨_, rfl⟩)
        | none =>
          simp only [saveLoop, hlk, hop, had, List.mem_cons] at he
          rcases he with rfl | rfl | rfl | hmem
          · exact Or.inl ⟨_, rfl⟩
          · exact Or.inr (Or.inl ⟨_, _, rfl⟩)
          · exact Or.inr (Or.inr ⟨_, rfl⟩)
          · exact ih _ e hmem

theorem save_trace_shape (env : Env) (m : List (String × List Nat)) (assets : List Asset) :
    (Save env m assets).trace = [] ∨
    ∃ tmp mid, env.tempDir = .ok tmp ∧
      (Save env m assets).trace = .tempDirCreated tmp :: (mid ++ [.removeAll tmp]) ∧
      ∀ d, .tempDirCreated d ∉ mid := by
  cases htd : env.tempDir with
  | error e => exact Or.inl (by simp [Save, htd])
  | ok tmp =>
    right
    have hloop := saveLoop_events env tmp m assets []
    have hnotmid : ∀ d, Event.tempDirCreated d ∉ (saveLoop env tmp m assets []).1 := by
      intro d hmem
      rcases hloop _ hmem with ⟨p, h⟩ | ⟨p, bs, h⟩ | ⟨p, h⟩ <;> cases h
    cases hres : (saveLoop env tmp m assets []).2 with
    | error e =>
      refine ⟨tmp, (saveLoop env tmp m assets []).1, rfl, ?_, hnotmid⟩
      simp [Save, htd, hres]
    | ok label =>
      cases hset : env.setLabelErr AssetLayersLabel (encodeLabel label) with
      | some e =>
        refine ⟨tmp, (saveLoop env tmp m assets []).1 ++
          [.setLabel AssetLayersLabel (encodeLabel label)], rfl, ?_, ?_⟩
        · simp [Save, htd, hres, hset, List.append_assoc]
        · intro d hmem
          rcases List.mem_append.mp hmem with h | h
          · exact hnotmid d h
          · simp at h
      | none =>
        cases hsv : env.saveErr with
        | some e =>
          refine ⟨tmp, (saveLoop env tmp m assets []).1 ++
            [.setLabel AssetLayersLabel (encodeLabel label), .saveImage], rfl, ?_, ?_⟩
          · simp [Save, htd, hres, hset, hsv, List.append_assoc]
          · intro d hmem
            rcases List.mem_append.mp hmem with h | h
            · exact hnotmid d h
            · simp at h
        | none =>
          refine ⟨tmp, (saveLoop env tmp m assets []).1 ++
            [.setLabel AssetLayersLabel (encodeLabel label), .saveImage], rfl, ?_, ?_⟩
          · simp [Save, htd, hres, hset, hsv, List.append_assoc]
          · intro d hmem
            rcases List.mem_append.mp hmem with h | h
            · exact hnotmid d h
            · simp at h

theorem downloadAssets_err (env : Env) (pre : List Asset) (a : Asset) (post : List Asset)
    (acc : List (String × List Nat)) (e : String)
    (hpre : ∀ x ∈ pre, ∃ b, env.download x.URI = .ok b)
    (ha : env.download a.URI = .error e) :
    downloadAssets env (pre ++ a :: post) acc =
      (pre.map (fun x => .download x.URI) ++ [.download a.URI], .error e) := by
  induction pre generalizing acc with
  | nil =>
    simp only [List.nil_append, downloadAssets, ha, List.map_nil]
  | cons x rest ih =>
    obtain ⟨b, hb⟩ := hpre x (List.mem_cons_self x rest)
    have hrest : ∀ y ∈ rest, ∃ b, env.download y.URI = .ok b :=
      fun y hy => hpre y (List.mem_cons_of_mem x hy)
    rw [List.cons_append]
    rw [show downloadAssets env (x :: (rest ++ a :: post)) acc =
        (.download x.URI ::
          (downloadAssets env (rest ++ a :: post) (mapSet acc x.Sha256 b)).1,
         (downloadAssets env (rest ++ a :: post) (mapSet acc x.Sha256 b)).2) from by
      simp [downloadAssets, hb]]
    rw [ih (mapSet acc x.Sha256 b) hrest]
    simp

/-! ## Permutation invariance of the assembled label -/

theorem findLastAsset_perm (l₁ l₂ : List Asset) (hperm : l₁.Perm l₂)
    (hnd : (l₁.map (·.Sha256)).Nodup) (s : String) :
    findLastAsset l₁ s = findLastAsset l₂ s := by
  cases h1 : findLastAsset l₁ s with
  | none =>
    cases h2 : findLastAsset l₂ s with
    | none => rfl
    | some b =>
      have hb := findLastAsset_mem_and_sha _ _ _ h2
      exact absurd hb.2
        ((findLastAsset_eq_none_iff _ _).mp h1 b (hperm.mem_iff.mpr hb.1))
  | some a =>
    have ha := findLastAsset_mem_and_sha _ _ _ h1
    cases h2 : findLastAsset l₂ s with
    | none =>
      exact absurd ha.2
        ((findLastAsset_eq_none_iff _ _).mp h2 a (hperm.mem_iff.mp ha.1))
    | some b =>
      have hb := findLastAsset_mem_and_sha _ _ _ h2
      have hbl1 : b ∈ l₁ := hperm.mem_iff.mpr hb.1
      have heq : a = b :=
        List.inj_on_of_nodup_map hnd ha.1 hbl1 (by
          show a.Sha256 = b.Sha256
          rw [ha.2, hb.2])
      rw [heq]

theorem encodeLabel_eq_of (l₁ l₂ : List (String × Asset))
    (hkeys : (l₁.map (·.1)).Perm (l₂.map (·.1)))
    (hlook : ∀ k, lookupMap l₁ k = lookupMap l₂ k) :
    encodeLabel l₁ = encodeLabel l₂ := by
  have hperm2 : ((l₁.map (·.1)).insertionSort (· ≤ ·)).Perm
      ((l₂.map (·.1)).insertionSort (· ≤ ·)) :=
    (List.perm_insertionSort _ _).trans
      (hkeys.trans (List.perm_insertionSort _ _).symm)
  have hsort : (l₁.map (·.1)).insertionSort (· ≤ ·) =
      (l₂.map (·.1)).insertionSort (· ≤ ·) :=
    List.eq_of_perm_of_sorted hperm2
      (List.sorted_insertionSort _ _) (List.sorted_insertionSort _ _)
  have hmap : ((l₂.map (·.1)).insertionSort (· ≤ ·)).map
        (fun k => jsonStr k ++ ":" ++ jsonAssetOpt (lookupMap l₁ k)) =
      ((l₂.map (·.1)).insertionSort (· ≤ ·)).map
        (fun k => jsonStr k ++ ":" ++ jsonAssetOpt (lookupMap l₂ k)) := by
    apply List.map_congr_left
    intro k _
    rw [hlook k]
  simp only [encodeLabel, sortStrings]
  rw [hsort, hmap]

/-! ## Claim C2 -/

/-- C2: for every blob of byte length n and content hash h, the packed tar
stream contains, in this order, exactly: a directory entry "cnb" with mode
0755, a directory entry "cnb/assets" with mode 0755, and a regular-file
entry "/cnb/assets/" ++ h with mode 0755, Size n, and the blob's bytes as
data; every entry carries the same fixed normalized modification timestamp
`NormalizedDateTime` (never wall-clock time: the stream is a function of the
blob and hash alone). -/
theorem c2_tar_layout (h : String) (b : List Nat) :
    toDistTarOps h b =
      [.writeHeader { typeflag := 53, name := "cnb", mode := 0o755, size := 0,
                      modTime := NormalizedDateTime },
       .writeHeader { typeflag := 53, name := "cnb/assets", mode := 0o755, size := 0,
                      modTime := NormalizedDateTime },
       .writeHeader { typeflag := 48, name := "/cnb/assets/" ++ h, mode := 0o755,
                      size := b.length, modTime := NormalizedDateTime },
       .write b] ∧
    ∀ hd, TarOp.writeHeader hd ∈ toDistTarOps h b → hd.modTime = NormalizedDateTime := by
  refine ⟨rfl, ?_⟩
  intro hd hmem
  simp only [toDistTarOps, cnbDirHeader, assetsDirHeader, assetFileHeader,
    List.mem_cons, List.not_mem_nil, or_false, TarOp.writeHeader.injEq] at hmem
  rcases hmem with rfl | rfl | rfl | hbad
  · rfl
  · rfl
  · rfl
  · cases hbad

/-- Witness for C2: the first entry of a concrete stream is the "cnb"
directory header, and its timestamp is the normalized instant. -/
theorem c2_tar_layout_witness :
    (TarOp.writeHeader cnbDirHeader ∈ toDistTarOps "s1" [7, 8]) ∧
    cnbDirHeader.modTime = NormalizedDateTime :=
  ⟨by decide, (c2_tar_layout "s1" [7, 8]).2 cnbDirHeader (by decide)⟩

/-! ## Claim C10 -/

/-- C10: the layer file ends immediately after the last byte of the regular
file entry's data — the stream is three 512-byte header blocks followed by
exactly the blob bytes, of total length 1536 + n; the zero padding of the
final data block and the two 512-byte end-of-archive blocks that a closed
archive would carry are absent (they are exactly what `runTarOpsClosed`
appends). -/
theorem c10_no_close (s : String) (b : List Nat)
    (hs : s.length ≤ 88)
    (hsa : ∀ c ∈ s.data, c.toNat ≤ 255)
    (hn : b.length < 8 ^ 11) :
    (∃ h1 h2 h3 : List Nat,
        packBytes s b = h1 ++ (h2 ++ (h3 ++ b)) ∧
        h1.length = 512 ∧ h2.length = 512 ∧ h3.length = 512) ∧
    (packBytes s b).length = 1536 + b.length ∧
    runTarOpsClosed (toDistTarOps s b) =
      packBytes s b ++ List.replicate (tarPad b.length) 0 ++ List.replicate 1024 0 :=
  ⟨⟨headerBytes cnbDirHeader, headerBytes assetsDirHeader,
    headerBytes (assetFileHeader s b.length), packBytes_eq s b,
    cnbDirHeader_length, assetsDirHeader_length,
    assetFileHeader_length s b.length hs hsa hn⟩,
   packBytes_length s b hs hsa hn,
   runTarOpsClosed_toDistTar s b⟩

/-- Witness for C10 at hash "a1b2" and blob [7]. -/
theorem c10_no_close_witness :
    ("a1b2".length ≤ 88 ∧ (∀ c ∈ "a1b2".data, c.toNat ≤ 255) ∧ [7].length < 8 ^ 11) ∧
    ((∃ h1 h2 h3 : List Nat,
        packBytes "a1b2" [7] = h1 ++ (h2 ++ (h3 ++ [7])) ∧
        h1.length = 512 ∧ h2.length = 512 ∧ h3.length = 512) ∧
     (packBytes "a1b2" [7]).length = 1536 + [7].length ∧
     runTarOpsClosed (toDistTarOps "a1b2" [7]) =
       packBytes "a1b2" [7] ++ List.replicate (tarPad [7].length) 0 ++
         List.replicate 1024 0) :=
  ⟨⟨by decide, by decide, by decide⟩,
   c10_no_close "a1b2" [7] (by decide) (by decide) (by decide)⟩

/-! ## Claim C5 -/

/-- C5: a syntactically invalid image name makes `CreateAssetCache` return
the descriptive validation error before performing any I/O: the trace is
empty (no image-store call, no fetch) for every asset list. -/
theorem c5_validation_first (env : Env) (opts : CreateAssetCacheOptions) (e : String)
    (h : env.parseTag opts.ImageName = .error e) :
    CreateAssetCache env opts =
      { trace := [],
        result := .err ("invalid asset cache image name: " ++ "\"" ++ e ++ "\""),
        label := [] } := by
  simp [CreateAssetCache, validateConfig, h]

/-- Witness for C5 at the image name "::::". -/
theorem c5_validation_first_witness :
    okEnv.parseTag "::::" = .error "could not parse reference" ∧
    CreateAssetCache okEnv { ImageName := "::::", Assets := [sampleAsset] } =
      { trace := [],
        result := .err ("invalid asset cache image name: " ++ "\"" ++
          "could not parse reference" ++ "\""),
        label := [] } :=
  ⟨rfl,
   c5_validation_first okEnv { ImageName := "::::", Assets := [sampleAsset] }
     "could not parse reference" rfl⟩

/-! ## Claim C9 -/

/-- C9: on every exit path of a build — success, returned error, or panic
partway through — once the trace records the creation of the scratch
directory, the trace ends with its removal. -/
theorem c9_tmpdir_removed (env : Env) (opts : CreateAssetCacheOptions) (d : String)
    (h : .tempDirCreated d ∈ (CreateAssetCache env opts).trace) :
    ∃ pre, (CreateAssetCache env opts).trace = pre ++ [.removeAll d] := by
  cases hp : env.parseTag opts.ImageName with
  | error e =>
    simp only [CreateAssetCache, validateConfig, hp] at h
    cases h
  | ok t =>
    cases hni : env.newImageErr t with
    | some e =>
      simp only [CreateAssetCache, validateConfig, hp, hni] at h
      simp at h
    | none =>
      cases hdl2 : (downloadAssets env opts.Assets []).2 with
      | error e =>
        simp only [CreateAssetCache, validateConfig, hp, hni, hdl2] at h
        simp only [List.mem_cons] at h
        rcases h with h | h
        · cases h
        · obtain ⟨u, hu⟩ := downloadAssets_events env opts.Assets [] _ h
          cases hu
      | ok m =>
        have hshape := save_trace_shape env m opts.Assets
        simp only [CreateAssetCache, validateConfig, hp, hni, hdl2] at h ⊢
        rcases hshape with hempty | ⟨tmp, mid, _, hs, hnot⟩
        · rw [hempty] at h
          simp only [List.append_nil, List.mem_cons] at h
          rcases h with h | h
          · cases h
          · obtain ⟨u, hu⟩ := downloadAssets_events env opts.Assets [] _ h
            cases hu
        · rw [hs] at h ⊢
          have hd : d = tmp := by
            rcases List.mem_cons.mp h with heq | hmem
            · cases heq
            rcases List.mem_append.mp hmem with hdl | hrest
            · obtain ⟨u, hu⟩ := downloadAssets_events env opts.Assets [] _ hdl
              cases hu
            rcases List.mem_cons.mp hrest with heq | hmid
            · exact Event.tempDirCreated.inj heq
            rcases List.mem_append.mp hmid with hm | hlast
            · exact absurd hm (hnot d)
            · rw [List.mem_singleton] at hlast
              cases hlast
          subst hd
          refine ⟨.newImage t true ::
            ((downloadAssets env opts.Assets []).1 ++ (.tempDirCreated d :: mid)), ?_⟩
          simp [List.append_assoc]

/-- Witness for C9: the successful empty-assets run creates and removes its
scratch directory. -/
theorem c9_tmpdir_removed_witness :
    .tempDirCreated "tmp" ∈
      (CreateAssetCache okEnv { ImageName := "img", Assets := [] }).trace ∧
    ∃ pre, (CreateAssetCache okEnv { ImageName := "img", Assets := [] }).trace =
      pre ++ [.removeAll "tmp"] :=
  ⟨by decide,
   c9_tmpdir_removed okEnv { ImageName := "img", Assets := [] } "tmp" (by decide)⟩

/-! ## Claim C3 -/

theorem countP_flatMap {α β : Type} (p : β → Bool) (g : α → List β) (l : List α) :
    (l.flatMap g).countP p = (l.map (fun a => (g a).countP p)).sum := by
  induction l with
  | nil => rfl
  | cons a rest ih =>
    rw [List.flatMap_cons, List.countP_append, ih, List.map_cons, List.sum_cons]

theorem sum_map_one {α : Type} (l : List α) :
    (l.map (fun _ => (1 : Nat))).sum = l.length := by
  induction l with
  | nil => rfl
  | cons a rest ih =>
    simp [ih]
    omega

theorem counts_of_run (env : Env) (opts : CreateAssetCacheOptions) (t d : String)
    (hname : env.parseTag opts.ImageName = .ok t)
    (himg : env.newImageErr t = none)
    (hdl : ∀ a ∈ opts.Assets, ∃ b, env.download a.URI = .ok b)
    (htmp : env.tempDir = .ok d)
    (hopen : ∀ p, env.openFileErr p = none)
    (hadd : ∀ p, env.addLayerErr p = none)
    (hset : ∀ k v, env.setLabelErr k v = none)
    (hsave : env.saveErr = none) :
    countDownloads (CreateAssetCache env opts).trace = opts.Assets.length ∧
    countAddLayers (CreateAssetCache env opts).trace = opts.Assets.length := by
  rw [createAssetCache_run env opts t d hname himg hdl htmp hopen hadd hset hsave]
  constructor
  · simp only [countDownloads, List.countP_cons, List.countP_append, countP_flatMap,
      List.countP_map, List.countP_nil]
    simp [Function.comp, List.countP_cons, sum_map_one, List.countP_true]
  · simp only [countAddLayers, List.countP_cons, List.countP_append, countP_flatMap,
      List.countP_map, List.countP_nil]
    simp [Function.comp, List.countP_cons, sum_map_one]

theorem mapSet_pair_sha (m : List (String × Asset)) (k : String) (v : Asset)
    (hm : ∀ p ∈ m, p.2.Sha256 = p.1) (hv : v.Sha256 = k) :
    ∀ p ∈ mapSet m k v, p.2.Sha256 = p.1 := by
  intro p hp
  rcases List.mem_append.mp hp with h | h
  · exact hm p (List.mem_filter.mp h).1
  · rw [List.mem_singleton] at h
    subst h
    exact hv

theorem assetFold_sha (l : List Asset) (m : List (String × Asset))
    (hm : ∀ p ∈ m, p.2.Sha256 = p.1) :
    ∀ p ∈ l.foldl (fun m a => mapSet m a.Sha256 a) m, p.2.Sha256 = p.1 := by
  induction l generalizing m with
  | nil => exact hm
  | cons a rest ih => exact ih _ (mapSet_pair_sha _ _ _ hm rfl)

theorem assetFold_nodup (l : List Asset) (m : List (String × Asset))
    (hm : (keysOf m).Nodup) :
    (keysOf (l.foldl (fun m a => mapSet m a.Sha256 a) m)).Nodup := by
  induction l generalizing m with
  | nil => exact hm
  | cons a rest ih => exact ih _ (keysOf_mapSet_nodup _ _ _ hm)

theorem buildpacksFold_sha (bps : List BuildpackRecord) (m : List (String × Asset))
    (hm : ∀ p ∈ m, p.2.Sha256 = p.1) :
    ∀ p ∈ bps.foldl (fun m bp => bp.Assets.foldl (fun m a => mapSet m a.Sha256 a) m) m,
      p.2.Sha256 = p.1 := by
  induction bps generalizing m with
  | nil => exact hm
  | cons bp rest ih => exact ih _ (assetFold_sha _ _ hm)

theorem buildpacksFold_nodup (bps : List BuildpackRecord) (m : List (String × Asset))
    (hm : (keysOf m).Nodup) :
    (keysOf (bps.foldl (fun m bp => bp.Assets.foldl (fun m a => mapSet m a.Sha256 a) m) m)).Nodup := by
  induction bps generalizing m with
  | nil => exact hm
  | cons bp rest ih => exact ih _ (assetFold_nodup _ _ hm)

theorem getAssets_nodup_sorted (info : BuildpackInfo) :
    ((getAssets info).map (·.Sha256)).Nodup ∧
    (getAssets info).Sorted (fun a b => a.ID ≤ b.ID) := by
  haveI ht : IsTotal Asset (fun a b => a.ID ≤ b.ID) := ⟨fun a b => le_total a.ID b.ID⟩
  haveI htr : IsTrans Asset (fun a b => a.ID ≤ b.ID) :=
    ⟨fun a b c h1 h2 => le_trans h1 h2⟩
  constructor
  · have hsha := buildpacksFold_sha info.Buildpacks [] (by intro p hp; cases hp)
    have hnd := buildpacksFold_nodup info.Buildpacks [] (by simp [keysOf])
    have hperm :
        (getAssets info).Perm
          ((info.Buildpacks.foldl
            (fun m bp => bp.Assets.foldl (fun m a => mapSet m a.Sha256 a) m) []).map (·.2)) :=
      List.perm_insertionSort _ _
    rw [(hperm.map (·.Sha256)).nodup_iff]
    have hcomp :
        ((info.Buildpacks.foldl
            (fun m bp => bp.Assets.foldl (fun m a => mapSet m a.Sha256 a) m) []).map
          (·.2)).map (·.Sha256) =
        (info.Buildpacks.foldl
            (fun m bp => bp.Assets.foldl (fun m a => mapSet m a.Sha256 a) m) []).map (·.1) := by
      rw [List.map_map]
      exact List.map_congr_left (fun p hp => hsha p hp)
    rw [hcomp]
    exact hnd
  · exact List.sorted_insertionSort _ _

/-- C3 counterexample: `Client.CreateAssetCache` itself does not deduplicate:
given two assets with equal `Sha256`, the (successful) build performs two
`Download` calls and two `AddLayer` calls, not one. -/
theorem c3_counterexample :
    countDownloads
        (CreateAssetCache okEnv
          { ImageName := "img", Assets := [sampleAsset, sampleAsset] }).trace = 2 ∧
    countAddLayers
        (CreateAssetCache okEnv
          { ImageName := "img", Assets := [sampleAsset, sampleAsset] }).trace = 2 ∧
    (CreateAssetCache okEnv
        { ImageName := "img", Assets := [sampleAsset, sampleAsset] }).result = .ok := by
  refine ⟨by decide, by decide, by decide⟩

/-- C3 amended: deduplication and ID-sorting happen in the CLI layer
(`getAssets`), whose output has pairwise-distinct `Sha256` values and is
sorted by `ID`; `Client.CreateAssetCache` itself performs exactly one fetch,
one pack and one layer-attach per element of the list it is given — so only
for an already-deduplicated input is that one per distinct `Sha256`. -/
theorem c3_dedup_in_cli (env : Env) (opts : CreateAssetCacheOptions) (t d : String)
    (info : BuildpackInfo)
    (hname : env.parseTag opts.ImageName = .ok t)
    (himg : env.newImageErr t = none)
    (hdl : ∀ a ∈ opts.Assets, ∃ b, env.download a.URI = .ok b)
    (htmp : env.tempDir = .ok d)
    (hopen : ∀ p, env.openFileErr p = none)
    (hadd : ∀ p, env.addLayerErr p = none)
    (hset : ∀ k v, env.setLabelErr k v = none)
    (hsave : env.saveErr = none) :
    countDownloads (CreateAssetCache env opts).trace = opts.Assets.length ∧
    countAddLayers (CreateAssetCache env opts).trace = opts.Assets.length ∧
    ((getAssets info).map (·.Sha256)).Nodup ∧
    (getAssets info).Sorted (fun a b => a.ID ≤ b.ID) := by
  obtain ⟨h1, h2⟩ := counts_of_run env opts t d hname himg hdl htmp hopen hadd hset hsave
  obtain ⟨h3, h4⟩ := getAssets_nodup_sorted info
  exact ⟨h1, h2, h3, h4⟩

/-- Witness for the amended C3 on a concrete run and a concrete inspection
result holding a duplicated hash. -/
theorem c3_dedup_in_cli_witness :
    (∀ a ∈ ({ ImageName := "img", Assets := [sampleAsset, sampleAsset2] } :
        CreateAssetCacheOptions).Assets, ∃ b, okEnv.download a.URI = .ok b) ∧
    (countDownloads
        (CreateAssetCache okEnv
          { ImageName := "img", Assets := [sampleAsset, sampleAsset2] }).trace = 2 ∧
     countAddLayers
        (CreateAssetCache okEnv
          { ImageName := "img", Assets := [sampleAsset, sampleAsset2] }).trace = 2 ∧
     ((getAssets ⟨[⟨[sampleAsset, sampleAssetDup, sampleAsset2]⟩]⟩).map (·.Sha256)).Nodup ∧
     (getAssets ⟨[⟨[sampleAsset, sampleAssetDup, sampleAsset2]⟩]⟩).Sorted
       (fun a b => a.ID ≤ b.ID)) := by
  refine ⟨fun _ _ => ⟨[7, 8], rfl⟩, ?_⟩
  exact c3_dedup_in_cli okEnv
    { ImageName := "img", Assets := [sampleAsset, sampleAsset2] } "img" "tmp"
    ⟨[⟨[sampleAsset, sampleAssetDup, sampleAsset2]⟩]⟩
    rfl rfl (fun _ _ => ⟨[7, 8], rfl⟩) rfl (fun _ => rfl) (fun _ => rfl)
    (fun _ _ => rfl) rfl

/-! ## Claim C4 -/

/-- C4 counterexample: a failing fetch does not surface as a returned error —
the build panics with the downloader's error (no image is saved, but the
claim's "returns that error to its caller (no panic)" is false). -/
theorem c4_counterexample :
    (CreateAssetCache fetchFailEnv
        { ImageName := "img", Assets := [sampleAsset] }).result =
      .panicked "download failed" ∧
    (∀ e, (CreateAssetCache fetchFailEnv
        { ImageName := "img", Assets := [sampleAsset] }).result ≠ .err e) ∧
    .saveImage ∉ (CreateAssetCache fetchFailEnv
        { ImageName := "img", Assets := [sampleAsset] }).trace := by
  refine ⟨by decide, ?_, by decide⟩
  intro e h
  have hres : (CreateAssetCache fetchFailEnv
      { ImageName := "img", Assets := [sampleAsset] }).result =
    .panicked "download failed" := by decide
  rw [hres] at h
  cases h

/-- C4 amended: a fetch failure during the build makes `CreateAssetCache`
panic with that error instead of returning it (no retry), and no image-save
or label-set call happens; only validation, image-creation and final
image-save failures are returned as errors. -/
theorem c4_fetch_panics (env : Env) (opts : CreateAssetCacheOptions) (t e : String)
    (pre post : List Asset) (a : Asset)
    (hname : env.parseTag opts.ImageName = .ok t)
    (himg : env.newImageErr t = none)
    (hsplit : opts.Assets = pre ++ a :: post)
    (hpre : ∀ x ∈ pre, ∃ b, env.download x.URI = .ok b)
    (ha : env.download a.URI = .error e) :
    (CreateAssetCache env opts).result = .panicked e ∧
    .saveImage ∉ (CreateAssetCache env opts).trace ∧
    ∀ k v, .setLabel k v ∉ (CreateAssetCache env opts).trace := by
  have hdl := downloadAssets_err env pre a post [] e hpre ha
  have hrun : CreateAssetCache env opts =
      { trace := .newImage t true ::
          (pre.map (fun x => .download x.URI) ++ [.download a.URI]),
        result := .panicked e, label := [] } := by
    simp only [CreateAssetCache, validateConfig, hname, himg, hsplit, hdl]
  rw [hrun]
  refine ⟨rfl, ?_, ?_⟩
  · intro hmem
    rcases List.mem_cons.mp hmem with h | h
    · cases h
    rcases List.mem_append.mp h with h | h
    · obtain ⟨x, _, hx⟩ := List.mem_map.mp h
      cases hx
    · rw [List.mem_singleton] at h
      cases h
  · intro k v hmem
    rcases List.mem_cons.mp hmem with h | h
    · cases h
    rcases List.mem_append.mp h with h | h
    · obtain ⟨x, _, hx⟩ := List.mem_map.mp h
      cases hx
    · rw [List.mem_singleton] at h
      cases h

/-- Witness for the amended C4 at a concrete failing fetch. -/
theorem c4_fetch_panics_witness :
    fetchFailEnv.download sampleAsset.URI = .error "download failed" ∧
    ((CreateAssetCache fetchFailEnv
        { ImageName := "img", Assets := [sampleAsset] }).result =
          .panicked "download failed" ∧
     .saveImage ∉ (CreateAssetCache fetchFailEnv
        { ImageName := "img", Assets := [sampleAsset] }).trace ∧
     ∀ k v, .setLabel k v ∉ (CreateAssetCache fetchFailEnv
        { ImageName := "img", Assets := [sampleAsset] }).trace) :=
  ⟨rfl,
   c4_fetch_panics fetchFailEnv { ImageName := "img", Assets := [sampleAsset] }
     "img" "download failed" [] [] sampleAsset rfl rfl rfl
     (fun x hx => absurd hx (List.not_mem_nil x)) rfl⟩

/-! ## Claims C6 and C1 -/

theorem packDiffID_ne_empty (hash : List Nat → List Nat) (s : String) (b : List Nat) :
    packDiffID hash s b ≠ "" := by
  intro h
  have hlen : (packDiffID hash s b).length = 0 := by rw [h]; rfl
  rw [packDiffID, String.length_append] at hlen
  have h7 : ("sha256:" : String).length = 7 := by decide
  omega

theorem finalLabel_lookup (env : Env) (assets : List Asset) (s : String) :
    lookupMap (finalLabel env assets) s =
      match findLastAsset assets s with
      | some aa => some (packedAsset env.hash (dlMap env assets) aa)
      | none => none := by
  rw [finalLabel, lookupMap_labelFold]
  cases findLastAsset assets s <;> rfl

/-- C6: after a successful build, the label map holds exactly one entry per
distinct `Sha256` of the input list — keys are duplicate-free and are exactly
the input hashes — and each entry is keyed by that hash and valued by an
input asset record carrying it, with its `LayerDiffID` populated. -/
theorem c6_label_entries (env : Env) (opts : CreateAssetCacheOptions) (t d : String)
    (hname : env.parseTag opts.ImageName = .ok t)
    (himg : env.newImageErr t = none)
    (hdl : ∀ a ∈ opts.Assets, ∃ b, env.download a.URI = .ok b)
    (htmp : env.tempDir = .ok d)
    (hopen : ∀ p, env.openFileErr p = none)
    (hadd : ∀ p, env.addLayerErr p = none)
    (hset : ∀ k v, env.setLabelErr k v = none)
    (hsave : env.saveErr = none) :
    (CreateAssetCache env opts).result = .ok ∧
    (keysOf (CreateAssetCache env opts).label).Nodup ∧
    (∀ k, k ∈ keysOf (CreateAssetCache env opts).label ↔
      k ∈ opts.Assets.map (·.Sha256)) ∧
    (∀ s a', lookupMap (CreateAssetCache env opts).label s = some a' →
      ∃ aa, findLastAsset opts.Assets s = some aa ∧ aa ∈ opts.Assets ∧
        aa.Sha256 = s ∧
        a' = { aa with
          LayerDiffID := packDiffID env.hash s (blobGet (dlMap env opts.Assets) s) } ∧
        a'.LayerDiffID ≠ "") := by
  rw [createAssetCache_run env opts t d hname himg hdl htmp hopen hadd hset hsave]
  refine ⟨rfl, ?_, ?_, ?_⟩
  · exact keysOf_labelFold_nodup env _ _ [] (by simp [keysOf])
  · intro k
    show k ∈ keysOf (finalLabel env opts.Assets) ↔ _
    rw [finalLabel, mem_keysOf_labelFold]
    simp [keysOf]
  · intro s a' hlk
    rw [show ({ trace := _, result := _, label := finalLabel env opts.Assets } :
        RunResult).label = finalLabel env opts.Assets from rfl,
      finalLabel_lookup] at hlk
    cases hfind : findLastAsset opts.Assets s with
    | none => rw [hfind] at hlk; cases hlk
    | some aa =>
      rw [hfind] at hlk
      injection hlk with ha'
      obtain ⟨hmem, hsha⟩ := findLastAsset_mem_and_sha opts.Assets s aa hfind
      refine ⟨aa, rfl, hmem, hsha, ?_, ?_⟩
      · rw [← ha', packedAsset, hsha]
      · rw [← ha']
        show packDiffID env.hash aa.Sha256 _ ≠ ""
        exact packDiffID_ne_empty _ _ _

/-- Witness for C6 on a concrete successful run. -/
theorem c6_label_entries_witness :
    okEnv.tempDir = .ok "tmp" ∧
    ((CreateAssetCache okEnv
        { ImageName := "img", Assets := [sampleAsset, sampleAsset2] }).result = .ok ∧
     (keysOf (CreateAssetCache okEnv
        { ImageName := "img", Assets := [sampleAsset, sampleAsset2] }).label).Nodup ∧
     (∀ k, k ∈ keysOf (CreateAssetCache okEnv
        { ImageName := "img", Assets := [sampleAsset, sampleAsset2] }).label ↔
       k ∈ ([sampleAsset, sampleAsset2].map (·.Sha256))) ∧
     (∀ s a', lookupMap (CreateAssetCache okEnv
        { ImageName := "img", Assets := [sampleAsset, sampleAsset2] }).label s = some a' →
       ∃ aa, findLastAsset [sampleAsset, sampleAsset2] s = some aa ∧
         aa ∈ [sampleAsset, sampleAsset2] ∧ aa.Sha256 = s ∧
         a' = { aa with
           LayerDiffID := packDiffID okEnv.hash s (blobGet (dlMap okEnv [sampleAsset, sampleAsset2]) s) } ∧
         a'.LayerDiffID ≠ "")) :=
  ⟨rfl,
   c6_label_entries okEnv { ImageName := "img", Assets := [sampleAsset, sampleAsset2] }
     "img" "tmp" rfl rfl (fun _ _ => ⟨[7, 8], rfl⟩) rfl (fun _ => rfl) (fun _ => rfl)
     (fun _ _ => rfl) rfl⟩

/-- C1: for every asset packed during a build, the recorded `LayerDiffID` is
the string "sha256:" followed by the lowercase hex digest of the hash fed,
in a single pass, exactly the raw uncompressed tar byte stream written to
that asset's layer file (`packBytes`) — not the original blob bytes; with a
32-byte digest (as SHA-256 yields) the hex part has 64 characters. -/
theorem c1_diffid_format (env : Env) (opts : CreateAssetCacheOptions) (t d : String)
    (hname : env.parseTag opts.ImageName = .ok t)
    (himg : env.newImageErr t = none)
    (hdl : ∀ a ∈ opts.Assets, ∃ b, env.download a.URI = .ok b)
    (htmp : env.tempDir = .ok d)
    (hopen : ∀ p, env.openFileErr p = none)
    (hadd : ∀ p, env.addLayerErr p = none)
    (hset : ∀ k v, env.setLabelErr k v = none)
    (hsave : env.saveErr = none)
    (s : String) (a' : Asset)
    (hlk : lookupMap (CreateAssetCache env opts).label s = some a') :
    ∃ b, .fileWritten (d ++ "/" ++ s) (packBytes s b) ∈
        (CreateAssetCache env opts).trace ∧
      a'.LayerDiffID = "sha256:" ++ hexBytes (env.hash (packBytes s b)) ∧
      (∀ c ∈ (hexBytes (env.hash (packBytes s b))).data,
        c ∈ ("0123456789abcdef").data) ∧
      ((env.hash (packBytes s b)).length = 32 →
        (hexBytes (env.hash (packBytes s b))).length = 64) ∧
      (s.length ≤ 88 → (∀ c ∈ s.data, c.toNat ≤ 255) → b.length < 8 ^ 11 →
        packBytes s b ≠ b) := by
  rw [createAssetCache_run env opts t d hname himg hdl htmp hopen hadd hset hsave] at hlk ⊢
  rw [show ({ trace := _, result := _, label := finalLabel env opts.Assets } :
      RunResult).label = finalLabel env opts.Assets from rfl,
    finalLabel_lookup] at hlk
  cases hfind : findLastAsset opts.Assets s with
  | none => rw [hfind] at hlk; cases hlk
  | some aa =>
    rw [hfind] at hlk
    injection hlk with ha'
    obtain ⟨hmem, hsha⟩ := findLastAsset_mem_and_sha opts.Assets s aa hfind
    refine ⟨blobGet (dlMap env opts.Assets) s, ?_, ?_, hexBytes_chars _, ?_, ?_⟩
    · show _ ∈ Event.newImage t true :: _
      apply List.mem_cons_of_mem
      apply List.mem_append_right
      apply List.mem_cons_of_mem
      apply List.mem_append_left
      apply List.mem_flatMap.mpr
      refine ⟨aa, hmem, ?_⟩
      rw [hsha]
      simp
    · rw [← ha', packedAsset, hsha]
      rfl
    · intro h32
      rw [hexBytes_length, h32]
    · intro h1 h2 h3 heq
      have hlen := packBytes_length s (blobGet (dlMap env opts.Assets) s) h1 h2 h3
      have := congrArg List.length heq
      rw [hlen] at this
      omega

/-- Witness for C1 on a concrete run: the recorded diff ID of "s1" is
"sha256:" followed by 64 lowercase hex characters of the 32-byte digest. -/
theorem c1_diffid_format_witness :
    lookupMap (CreateAssetCache okEnv
        { ImageName := "img", Assets := [sampleAsset] }).label "s1" =
      some { sampleAsset with
        LayerDiffID := "sha256:" ++ hexBytes (List.replicate 32 0) } ∧
    ∃ b, .fileWritten ("tmp" ++ "/" ++ "s1") (packBytes "s1" b) ∈
        (CreateAssetCache okEnv { ImageName := "img", Assets := [sampleAsset] }).trace ∧
      ({ sampleAsset with
          LayerDiffID := "sha256:" ++ hexBytes (List.replicate 32 0) } :
        Asset).LayerDiffID =
        "sha256:" ++ hexBytes (okEnv.hash (packBytes "s1" b)) ∧
      (∀ c ∈ (hexBytes (okEnv.hash (packBytes "s1" b))).data,
        c ∈ ("0123456789abcdef").data) ∧
      ((okEnv.hash (packBytes "s1" b)).length = 32 →
        (hexBytes (okEnv.hash (packBytes "s1" b))).length = 64) ∧
      ("s1".length ≤ 88 → (∀ c ∈ "s1".data, c.toNat ≤ 255) → b.length < 8 ^ 11 →
        packBytes "s1" b ≠ b) :=
  ⟨by decide,
   c1_diffid_format okEnv { ImageName := "img", Assets := [sampleAsset] } "img" "tmp"
     rfl rfl (fun _ _ => ⟨[7, 8], rfl⟩) rfl (fun _ => rfl) (fun _ => rfl)
     (fun _ _ => rfl) rfl "s1"
     { sampleAsset with LayerDiffID := "sha256:" ++ hexBytes (List.replicate 32 0) }
     (by decide)⟩

/-! ## Claim C8 -/

theorem blobGet_dlMap (env : Env) (assets : List Asset) (s : String) (aa : Asset)
    (hfind : findLastAsset assets s = some aa) (b : List Nat)
    (hdlb : env.download aa.URI = .ok b) :
    blobGet (dlMap env assets) s = b := by
  rw [blobGet, dlMap, lookupMap_dlFold, hfind]
  show (some (dlBytes env aa.URI)).getD [] = b
  rw [dlBytes, hdlb]
  rfl

theorem run_diffid (env : Env) (opts : CreateAssetCacheOptions) (t d : String)
    (hname : env.parseTag opts.ImageName = .ok t)
    (himg : env.newImageErr t = none)
    (hdl : ∀ a ∈ opts.Assets, ∃ b, env.download a.URI = .ok b)
    (htmp : env.tempDir = .ok d)
    (hopen : ∀ p, env.openFileErr p = none)
    (hadd : ∀ p, env.addLayerErr p = none)
    (hset : ∀ k v, env.setLabelErr k v = none)
    (hsave : env.saveErr = none)
    (s : String) (b : List Nat) (a' : Asset)
    (hb : assetBlob env opts.Assets s = some b)
    (hl : lookupMap (CreateAssetCache env opts).label s = some a') :
    a'.LayerDiffID = "sha256:" ++ hexBytes (env.hash (packBytes s b)) := by
  rw [createAssetCache_run env opts t d hname himg hdl htmp hopen hadd hset hsave] at hl
  rw [show ({ trace := _, result := _, label := finalLabel env opts.Assets } :
      RunResult).label = finalLabel env opts.Assets from rfl,
    finalLabel_lookup] at hl
  cases hfind : findLastAsset opts.Assets s with
  | none =>
    rw [assetBlob, hfind] at hb
    have hb2 : (none : Option (List Nat)) = some b := hb
    cases hb2
  | some aa =>
    rw [hfind] at hl
    injection hl with ha'
    obtain ⟨hmem, hsha⟩ := findLastAsset_mem_and_sha opts.Assets s aa hfind
    rw [assetBlob, hfind] at hb
    have hb2 : (env.download aa.URI).toOption = some b := hb
    have hdlb : env.download aa.URI = .ok b := by
      cases hdl2 : env.download aa.URI with
      | error e => rw [hdl2] at hb2; cases hb2
      | ok bb =>
        rw [hdl2] at hb2
        simp only [Except.toOption] at hb2
        injection hb2 with hbb
        rw [hbb]
    have hbg := blobGet_dlMap env opts.Assets s aa hfind b hdlb
    rw [← ha', packedAsset, hsha, hbg]
    rfl

/-- C8: packing is deterministic — whenever two builds (same or different
invocations, environments agreeing on the hash collaborator) pack the same
blob bytes under the same content hash, the recorded `LayerDiffID` values
are identical, and equal the digest of the normalized tar stream. -/
theorem c8_pack_deterministic (env₁ env₂ : Env) (opts₁ opts₂ : CreateAssetCacheOptions)
    (t₁ t₂ d₁ d₂ : String)
    (hname₁ : env₁.parseTag opts₁.ImageName = .ok t₁)
    (himg₁ : env₁.newImageErr t₁ = none)
    (hdl₁ : ∀ a ∈ opts₁.Assets, ∃ b, env₁.download a.URI = .ok b)
    (htmp₁ : env₁.tempDir = .ok d₁)
    (hopen₁ : ∀ p, env₁.openFileErr p = none)
    (hadd₁ : ∀ p, env₁.addLayerErr p = none)
    (hset₁ : ∀ k v, env₁.setLabelErr k v = none)
    (hsave₁ : env₁.saveErr = none)
    (hname₂ : env₂.parseTag opts₂.ImageName = .ok t₂)
    (himg₂ : env₂.newImageErr t₂ = none)
    (hdl₂ : ∀ a ∈ opts₂.Assets, ∃ b, env₂.download a.URI = .ok b)
    (htmp₂ : env₂.tempDir = .ok d₂)
    (hopen₂ : ∀ p, env₂.openFileErr p = none)
    (hadd₂ : ∀ p, env₂.addLayerErr p = none)
    (hset₂ : ∀ k v, env₂.setLabelErr k v = none)
    (hsave₂ : env₂.saveErr = none)
    (hhash : env₁.hash = env₂.hash)
    (s : String) (b : List Nat) (a₁ a₂ : Asset)
    (hb₁ : assetBlob env₁ opts₁.Assets s = some b)
    (hb₂ : assetBlob env₂ opts₂.Assets s = some b)
    (hl₁ : lookupMap (CreateAssetCache env₁ opts₁).label s = some a₁)
    (hl₂ : lookupMap (CreateAssetCache env₂ opts₂).label s = some a₂) :
    a₁.LayerDiffID = a₂.LayerDiffID ∧
    a₁.LayerDiffID = "sha256:" ++ hexBytes (env₁.hash (packBytes s b)) := by
  have h1 := run_diffid env₁ opts₁ t₁ d₁ hname₁ himg₁ hdl₁ htmp₁ hopen₁ hadd₁
    hset₁ hsave₁ s b a₁ hb₁ hl₁
  have h2 := run_diffid env₂ opts₂ t₂ d₂ hname₂ himg₂ hdl₂ htmp₂ hopen₂ hadd₂
    hset₂ hsave₂ s b a₂ hb₂ hl₂
  refine ⟨?_, h1⟩
  rw [h1, h2, hhash]

/-- Witness for C8: the same hash packed in two different builds (different
image, reversed asset order) records the same diff ID. -/
theorem c8_pack_deterministic_witness :
    assetBlob okEnv [sampleAsset, sampleAsset2] "s1" = some [7, 8] ∧
    assetBlob okEnv [sampleAsset2, sampleAsset] "s1" = some [7, 8] ∧
    (({ sampleAsset with LayerDiffID := "sha256:" ++ hexBytes (List.replicate 32 0) } :
        Asset).LayerDiffID =
      ({ sampleAsset with LayerDiffID := "sha256:" ++ hexBytes (List.replicate 32 0) } :
        Asset).LayerDiffID ∧
     ({ sampleAsset with LayerDiffID := "sha256:" ++ hexBytes (List.replicate 32 0) } :
        Asset).LayerDiffID =
       "sha256:" ++ hexBytes (okEnv.hash (packBytes "s1" [7, 8]))) :=
  ⟨by decide, by decide,
   c8_pack_deterministic okEnv okEnv
     { ImageName := "img", Assets := [sampleAsset, sampleAsset2] }
     { ImageName := "img2", Assets := [sampleAsset2, sampleAsset] }
     "img" "img2" "tmp" "tmp"
     rfl rfl (fun _ _ => ⟨[7, 8], rfl⟩) rfl (fun _ => rfl) (fun _ => rfl)
     (fun _ _ => rfl) rfl
     rfl rfl (fun _ _ => ⟨[7, 8], rfl⟩) rfl (fun _ => rfl) (fun _ => rfl)
     (fun _ _ => rfl) rfl
     rfl "s1" [7, 8] _ _ (by decide) (by decide) (by decide) (by decide)⟩

/-! ## Claim C7 -/

theorem labelFold_map_shape (env : Env) (m : List (String × List Nat))
    (assets : List Asset) (hnd : (assets.map (·.Sha256)).Nodup) :
    labelFold env m assets [] =
      assets.map (fun a => (a.Sha256, packedAsset env.hash m a)) := by
  have h := labelFold_nodup_shape env m assets [] hnd (by intro a _ hmem; cases hmem)
  simpa using h

theorem finalLabel_keys (env : Env) (assets : List Asset)
    (hnd : (assets.map (·.Sha256)).Nodup) :
    keysOf (finalLabel env assets) = assets.map (·.Sha256) := by
  rw [finalLabel, labelFold_map_shape env _ assets hnd, keysOf, List.map_map]
  rfl

theorem finalLabel_lookup_perm (env : Env) (l₁ l₂ : List Asset) (hperm : l₁.Perm l₂)
    (hnd : (l₁.map (·.Sha256)).Nodup) (k : String) :
    lookupMap (finalLabel env l₁) k = lookupMap (finalLabel env l₂) k := by
  rw [finalLabel_lookup, finalLabel_lookup, ← findLastAsset_perm l₁ l₂ hperm hnd k]
  cases hfind : findLastAsset l₁ k with
  | none => rfl
  | some aa =>
    have hbg : blobGet (dlMap env l₁) aa.Sha256 = blobGet (dlMap env l₂) aa.Sha256 := by
      rw [blobGet, blobGet, dlMap, dlMap, lookupMap_dlFold, lookupMap_dlFold,
        ← findLastAsset_perm l₁ l₂ hperm hnd aa.Sha256]
    simp only [packedAsset, hbg]

/-- C7 counterexample: two asset lists that are permutations of each other —
they share a `Sha256` but differ in identity fields — both build
successfully yet set different label JSON strings (the later duplicate wins,
so input order changes the label). -/
theorem c7_counterexample :
    ([sampleAsset, sampleAssetDup] : List Asset).Perm [sampleAssetDup, sampleAsset] ∧
    (CreateAssetCache okEnv
      { ImageName := "img", Assets := [sampleAsset, sampleAssetDup] }).result = .ok ∧
    (CreateAssetCache okEnv
      { ImageName := "img", Assets := [sampleAssetDup, sampleAsset] }).result = .ok ∧
    encodeLabel (CreateAssetCache okEnv
        { ImageName := "img", Assets := [sampleAsset, sampleAssetDup] }).label ≠
      encodeLabel (CreateAssetCache okEnv
        { ImageName := "img", Assets := [sampleAssetDup, sampleAsset] }).label := by
  refine ⟨by decide, by decide, by decide, by decide⟩

/-- C7 amended: for asset lists that are permutations of each other and have
pairwise-distinct `Sha256` values, successful builds set byte-identical
label JSON strings for `io.buildpacks.asset.layers`. -/
theorem c7_label_order_independent (env : Env) (opts₁ opts₂ : CreateAssetCacheOptions)
    (t₁ t₂ d : String)
    (hperm : opts₁.Assets.Perm opts₂.Assets)
    (hnd : (opts₁.Assets.map (·.Sha256)).Nodup)
    (hname₁ : env.parseTag opts₁.ImageName = .ok t₁)
    (hname₂ : env.parseTag opts₂.ImageName = .ok t₂)
    (himg : ∀ u, env.newImageErr u = none)
    (hdl : ∀ a ∈ opts₁.Assets, ∃ b, env.download a.URI = .ok b)
    (htmp : env.tempDir = .ok d)
    (hopen : ∀ p, env.openFileErr p = none)
    (hadd : ∀ p, env.addLayerErr p = none)
    (hset : ∀ k v, env.setLabelErr k v = none)
    (hsave : env.saveErr = none) :
    (CreateAssetCache env opts₁).result = .ok ∧
    (CreateAssetCache env opts₂).result = .ok ∧
    encodeLabel (CreateAssetCache env opts₁).label =
      encodeLabel (CreateAssetCache env opts₂).label ∧
    .setLabel AssetLayersLabel (encodeLabel (CreateAssetCache env opts₁).label) ∈
      (CreateAssetCache env opts₁).trace ∧
    .setLabel AssetLayersLabel (encodeLabel (CreateAssetCache env opts₁).label) ∈
      (CreateAssetCache env opts₂).trace := by
  have hdl₂ : ∀ a ∈ opts₂.Assets, ∃ b, env.download a.URI = .ok b :=
    fun a ha => hdl a (hperm.mem_iff.mpr ha)
  have hnd₂ : (opts₂.Assets.map (·.Sha256)).Nodup :=
    ((hperm.map (·.Sha256)).nodup_iff).mp hnd
  have hrun₁ := createAssetCache_run env opts₁ t₁ d hname₁ (himg t₁) hdl htmp
    hopen hadd hset hsave
  have hrun₂ := createAssetCache_run env opts₂ t₂ d hname₂ (himg t₂) hdl₂ htmp
    hopen hadd hset hsave
  have hlab₁ : (CreateAssetCache env opts₁).label = finalLabel env opts₁.Assets := by
    rw [hrun₁]
  have hlab₂ : (CreateAssetCache env opts₂).label = finalLabel env opts₂.Assets := by
    rw [hrun₂]
  have henc : encodeLabel (finalLabel env opts₁.Assets) =
      encodeLabel (finalLabel env opts₂.Assets) := by
    apply encodeLabel_eq_of
    · show keysOf (finalLabel env opts₁.Assets) |>.Perm
        (keysOf (finalLabel env opts₂.Assets))
      rw [finalLabel_keys env _ hnd, finalLabel_keys env _ hnd₂]
      exact hperm.map _
    · intro k
      exact finalLabel_lookup_perm env _ _ hperm hnd k
  refine ⟨by rw [hrun₁], by rw [hrun₂], by rw [hlab₁, hlab₂]; exact henc, ?_, ?_⟩
  · rw [hlab₁, hrun₁]
    exact List.mem_cons_of_mem _ (List.mem_append_right _
      (List.mem_cons_of_mem _ (List.mem_append_right _ (List.mem_cons_self _ _))))
  · rw [hlab₁, henc, hrun₂]
    exact List.mem_cons_of_mem _ (List.mem_append_right _
      (List.mem_cons_of_mem _ (List.mem_append_right _ (List.mem_cons_self _ _))))

/-- Witness for the amended C7 on two concrete permuted duplicate-free
lists. -/
theorem c7_label_order_independent_witness :
    ([sampleAsset, sampleAsset2] : List Asset).Perm [sampleAsset2, sampleAsset] ∧
    ([sampleAsset, sampleAsset2].map (·.Sha256)).Nodup ∧
    ((CreateAssetCache okEnv
        { ImageName := "img", Assets := [sampleAsset, sampleAsset2] }).result = .ok ∧
     (CreateAssetCache okEnv
        { ImageName := "img2", Assets := [sampleAsset2, sampleAsset] }).result = .ok ∧
     encodeLabel (CreateAssetCache okEnv
        { ImageName := "img", Assets := [sampleAsset, sampleAsset2] }).label =
       encodeLabel (CreateAssetCache okEnv
        { ImageName := "img2", Assets := [sampleAsset2, sampleAsset] }).label ∧
     .setLabel AssetLayersLabel (encodeLabel (CreateAssetCache okEnv
        { ImageName := "img", Assets := [sampleAsset, sampleAsset2] }).label) ∈
       (CreateAssetCache okEnv
        { ImageName := "img", Assets := [sampleAsset, sampleAsset2] }).trace ∧
     .setLabel AssetLayersLabel (encodeLabel (CreateAssetCache okEnv
        { ImageName := "img", Assets := [sampleAsset, sampleAsset2] }).label) ∈
       (CreateAssetCache okEnv
        { ImageName := "img2", Assets := [sampleAsset2, sampleAsset] }).trace) :=
  ⟨by decide, by decide,
   c7_label_order_independent okEnv
     { ImageName := "img", Assets := [sampleAsset, sampleAsset2] }
     { ImageName := "img2", Assets := [sampleAsset2, sampleAsset] }
     "img" "img2" "tmp" (by decide) (by decide)
     rfl rfl (fun _ => rfl) (fun _ _ => ⟨[7, 8], rfl⟩) rfl (fun _ => rfl)
     (fun _ => rfl) (fun _ _ => rfl) rfl⟩

end PackVerify
